import Mathlib

/-!
Verification development for the Von Neumann Probes simulation core
(source: `src/vnp.js`).

The JavaScript source is shallowly embedded in Lean:

* JS numbers are modelled as exact rationals (`ℚ`).  All arithmetic on the
  modelled quantities is exact; claims about floating-point rounding are out
  of scope of the embedding.
* Mutable global state is passed explicitly (records of the claim-relevant
  fields).
* Randomly drawn values (`rand`, `randomGaussian`, `Math.random`) are taken
  as explicit parameters of the embedded functions.
* Kinematic probe state (velocity, heading, DNA) evolves through `sin`, `cos`
  and `sqrt`, which have no exact rational embedding; those fields are
  omitted from the probe record.  None of the verified claims mention them,
  and in the source they influence only positions (which are parameters
  here) and never the accounting, grid, selection or state-machine fields
  that the claims are about.
-/

/-- World dimensions (`WORLD = { w: 24000, h: 24000 }`). -/
structure World where
  w : ℚ
  h : ℚ

def WORLD : World := ⟨24000, 24000⟩

/-- `const RES_CELL = 700` — spatial grid cell size. -/
def RES_CELL : ℚ := 700

/-- `const CHILD_START_RES = 12`. -/
def CHILD_START_RES : ℚ := 12

/-- `const HARD_PROBE_CAP = 1000000`. -/
def HARD_PROBE_CAP : Nat := 1000000

/-- `const MASTER_TRIGGER_DEPLETION = 0.90`. -/
def MASTER_TRIGGER_DEPLETION : ℚ := 9 / 10

/-- Master AI phase (`master.state`, a string in the source). -/
inductive MState where
  | NORMAL
  | RALLY
  | BUILD
  | CHARGE
  | WARP
deriving DecidableEq, Inhabited

/-- Truncation toward zero, the behaviour of JS `x | 0` and the integer part
used by the JS `%` operator. -/
def truncQ (q : ℚ) : ℤ :=
  if 0 ≤ q then ⌊q⌋ else ⌈q⌉

/-- JS remainder `v % size`: same sign as the dividend `v`. -/
def jsMod (v size : ℚ) : ℚ :=
  v - size * (truncQ (v / size) : ℚ)

/-- `wrap01Fast(v, size)` from `src/vnp.js`: one conditional correction,
falling back to a true modulo for out-of-range magnitudes. -/
def wrap01Fast (v size : ℚ) : ℚ :=
  let v1 := if v < 0 then v + size else if size ≤ v then v - size else v
  if v1 < 0 ∨ size ≤ v1 then
    let v2 := jsMod v1 size
    if v2 < 0 then v2 + size else v2
  else v1

/-- `wrapDeltaFast(d, size)` from `src/vnp.js`. -/
def wrapDeltaFast (d size : ℚ) : ℚ :=
  let half := size * (1 / 2)  -- 0.5 in the source
  if half < d then d - size
  else if d < -half then d + size
  else d

/-- The claim-relevant fields of the `Probe` class.  Kinematic fields
(`vx`, `vy`, `heading`, `dna`) and the radar/wander cooldowns are omitted:
they require trigonometry/square roots and none of the verified claims
mention them.  `resources` is the carried-resource total
(`this.resources`). -/
structure Probe where
  id : Nat
  isPlayer : Bool
  x : ℚ
  y : ℚ
  resources : ℚ
  target : Int
  replCooldown : ℚ
  waypoint : Option (ℚ × ℚ)
  sacrificing : Bool
  sacrificeT : ℚ
  dead : Bool
deriving DecidableEq, Inhabited

/-- The squared wrapped distance from probe `p` to the point `wp`; in the
source this value is cached as `p._d2tmp` at the top of
`selectKClosestInPlace` and then only read during partitioning, so it is a
pure function of `p` and `wp`. -/
def d2ToPoint (wp : ℚ × ℚ) (p : Probe) : ℚ :=
  let dx := wrapDeltaFast (p.x - wp.1) WORLD.w
  let dy := wrapDeltaFast (p.y - wp.2) WORLD.h
  dx * dx + dy * dy

/-- `swap(arr, i, j)` from `src/vnp.js`, on lists. -/
def swap {α : Type} [Inhabited α] (l : List α) (i j : Nat) : List α :=
  (l.set i (l.getD j default)).set j (l.getD i default)

/-- The scan loop of `partitionByD2` (`for (let i = left; i < right; i++)`),
carrying `storeIndex`.  The loop guard `i < right` is kept as in the source;
the structural fuel counter (one unit per iteration, `right - left` units
always suffice, and on exhaustion at `i = right` the result coincides with
the guard exit) keeps the definition kernel-computable. -/
def partGo {α : Type} [Inhabited α] (key : α → ℚ) (pv : ℚ) (right : Nat) :
    Nat → List α → Nat → Nat → List α × Nat
  | 0, l, store, _ => (l, store)
  | fuel + 1, l, store, i =>
    if i < right then
      if key (l.getD i default) < pv then
        partGo key pv right fuel (swap l store i) (store + 1) (i + 1)
      else
        partGo key pv right fuel l store (i + 1)
    else (l, store)

/-- `partitionByD2(arr, left, right, pivotIndex)` from `src/vnp.js`
(Lomuto partition around the value at `pivotIndex`). -/
def partitionByD2 {α : Type} [Inhabited α] (key : α → ℚ)
    (l : List α) (left right pivotIndex : Nat) : List α × Nat :=
  let pivotValue := key (l.getD pivotIndex default)
  let l1 := swap l pivotIndex right
  let pr := partGo key pivotValue right (right - left) l1 left left
  (swap pr.1 right pr.2, pr.2)

/-- The `while (true)` quickselect loop of `selectKClosestInPlace`, with an
explicit fuel counter; `none` means the fuel ran out before the loop
returned.  The source compares the signed quantity `k - 1` with the pivot
index, hence the `Int` casts.  (`(left + right) >> 1` is `(left + right) / 2`
on naturals.) -/
def selectLoopF {α : Type} [Inhabited α] (key : α → ℚ) :
    Nat → List α → Nat → Nat → Nat → Option (List α)
  | 0, _, _, _, _ => none
  | fuel + 1, l, k, left, right =>
    if right ≤ left then some l
    else
      let pr := partitionByD2 key l left right ((left + right) / 2)
      if (k : Int) - 1 = (pr.2 : Int) then some pr.1
      else if (k : Int) - 1 < (pr.2 : Int) then
        selectLoopF key fuel pr.1 k left (pr.2 - 1)
      else
        selectLoopF key fuel pr.1 k (pr.2 + 1) right

/-- `selectKClosestInPlace(arr, k, wp)` from `src/vnp.js`.  Each loop
iteration strictly shrinks `right - left`, so `arr.length + 1` units of fuel
always suffice (proved below); the `getD` default is never reached. -/
def selectKClosestInPlace (arr : List Probe) (k : Nat) (wp : ℚ × ℚ) :
    List Probe :=
  (selectLoopF (d2ToPoint wp) (arr.length + 1) arr k 0 (arr.length - 1)).getD arr

/-- Claim-relevant fields of a resource record (`makeResource`).  `id`,
`kind` and `radius` are omitted (never read by the verified operations). -/
structure GRes where
  x : ℚ
  y : ℚ
  amt : ℚ
  maxAmt : ℚ
  active : Bool
  activeIndex : Int
  gridCell : Int
  gridIndex : Int
deriving DecidableEq, Inhabited

/-- `resGridW = ceil(WORLD.w / RES_CELL)` (`initResGrid`). -/
def resGridW : ℤ := ⌈WORLD.w / RES_CELL⌉

/-- `resGridH = ceil(WORLD.h / RES_CELL)` (`initResGrid`). -/
def resGridH : ℤ := ⌈WORLD.h / RES_CELL⌉

/-- The mutable simulation state touched by the resource pool and spatial
grid: the backing store `resources`, the grid cells `resGrid`, the
swap-compacted `resourceActive` index list, and the two system totals. -/
structure SimState where
  resources : List GRes
  resGrid : List (List Nat)
  resourceActive : List Nat
  systemInitialTotal : ℚ
  systemRemainingTotal : ℚ
deriving DecidableEq, Inhabited

/-- `initResGrid()`: fresh empty cells, `resGridW * resGridH` of them. -/
def initResGrid : List (List Nat) :=
  List.replicate (resGridW * resGridH).toNat []

/-- `cellIndexForPos(x, y)` from `src/vnp.js`: `(x / RES_CELL) | 0` with a
clamp at the upper grid edge, then row-major cell index. -/
def cellIndexForPos (x y : ℚ) : ℤ :=
  let cx := truncQ (x / RES_CELL)
  let cy := truncQ (y / RES_CELL)
  let cx := if resGridW ≤ cx then resGridW - 1 else cx
  let cy := if resGridH ≤ cy then resGridH - 1 else cy
  cx + cy * resGridW

/-- `gridAddResource(idx)`: append `idx` to the cell computed from the
resource's position and record the back-references. -/
def gridAddResource (st : SimState) (idx : Nat) : SimState :=
  let r := st.resources.getD idx default
  let ci := (cellIndexForPos r.x r.y).toNat
  let cell := st.resGrid.getD ci []
  { st with
      resources := st.resources.set idx
        { r with gridCell := (ci : Int), gridIndex := (cell.length : Int) },
      resGrid := st.resGrid.set ci (cell ++ [idx]) }

/-- `gridRemoveResource(idx)`: swap the last element of the owning cell into
the removed slot, fix the moved element's back-reference, pop, and clear the
removed resource's back-references. -/
def gridRemoveResource (st : SimState) (idx : Nat) : SimState :=
  let r := st.resources.getD idx default
  let ci := r.gridCell
  let gi := r.gridIndex
  if ci < 0 ∨ gi < 0 then st
  else
    let cell := st.resGrid.getD ci.toNat []
    let lastIdx := cell.getD (cell.length - 1) 0
    let cell2 := (cell.set gi.toNat lastIdx).dropLast
    let res2 := st.resources.set lastIdx
      { st.resources.getD lastIdx default with gridIndex := gi }
    let res3 := res2.set idx
      { res2.getD idx default with gridCell := -1, gridIndex := -1 }
    { st with resources := res3, resGrid := st.resGrid.set ci.toNat cell2 }

/-- `activateResource(idx)`: mark active, append to `resourceActive`
recording `activeIndex`, then insert into the grid. -/
def activateResource (st : SimState) (idx : Nat) : SimState :=
  let r := st.resources.getD idx default
  let st1 := { st with
      resources := st.resources.set idx
        { r with active := true, activeIndex := (st.resourceActive.length : Int) },
      resourceActive := st.resourceActive ++ [idx] }
  gridAddResource st1 idx

/-- `deactivateResource(idx)`: remove from the grid, then swap-compact
`resourceActive` and clear the resource's active fields. -/
def deactivateResource (st : SimState) (idx : Nat) : SimState :=
  let r := st.resources.getD idx default
  if r.active = false then st
  else
    let st1 := gridRemoveResource st idx
    let ai := (st1.resources.getD idx default).activeIndex
    let last := st1.resourceActive.length - 1
    let lastIdx := st1.resourceActive.getD last 0
    let act2 := (st1.resourceActive.set ai.toNat lastIdx).dropLast
    let res2 := st1.resources.set lastIdx
      { st1.resources.getD lastIdx default with activeIndex := ai }
    let res3 := res2.set idx
      { res2.getD idx default with active := false, activeIndex := -1 }
    { st1 with resources := res3, resourceActive := act2 }

/-- `makeResource` with the randomly drawn position and capacity as
parameters (`amt` starts at `maxAmt`). -/
def makeResource (x y maxAmt : ℚ) : GRes :=
  { x := x, y := y, amt := maxAmt, maxAmt := maxAmt, active := false,
    activeIndex := -1, gridCell := -1, gridIndex := -1 }

/-- One iteration of the resource-creation loops in `spawnSystem()`: push a
fresh resource, activate it, and add its capacity to
`systemInitialTotal`. -/
def spawnStep (st : SimState) (sp : ℚ × ℚ × ℚ) : SimState :=
  let r := makeResource sp.1 sp.2.1 sp.2.2
  let idx := st.resources.length
  let st' := { st with resources := st.resources ++ [r] }
  let st'' := activateResource st' idx
  { st'' with systemInitialTotal := st''.systemInitialTotal + r.maxAmt }

/-- The empty state produced by the resets at the top of `spawnSystem()`
(including `initResGrid()`). -/
def emptySystem : SimState :=
  { resources := [], resGrid := initResGrid, resourceActive := [],
    systemInitialTotal := 0, systemRemainingTotal := 0 }

/-- `spawnSystem()` with the randomly drawn per-resource data (position and
capacity) supplied as the list `specs`: reset the pool and the grid, then
push and activate each resource while accumulating `systemInitialTotal`, and
finally set `systemRemainingTotal` to the initial total. -/
def spawnSystem (specs : List (ℚ × ℚ × ℚ)) : SimState :=
  let st1 := specs.foldl spawnStep emptySystem
  { st1 with systemRemainingTotal := st1.systemInitialTotal }

/-- `Probe._harvestFrom(ridx, dt)`: transfer
`min(r.amt, harvestRate * dt)` out of the resource, decrement
`systemRemainingTotal` (clamped at 0), and deactivate the resource once its
remainder falls to the `0.001` cutoff.  In the cutoff branch the source
first writes `r.amt -= take` and immediately overwrites it with
`r.amt = 0` before anything reads it, so the embedding stores the final
value directly.  The probe's own `resources` gain and target clearing touch
probe state, not the pool, and are not needed for the conservation
claim. -/
def harvestFrom (st : SimState) (ridx : Nat) (rate dt : ℚ) : SimState :=
  let r := st.resources.getD ridx default
  if r.amt ≤ 1 / 1000 then st  -- 0.001 in the source
  else
    let tk := min r.amt (rate * dt)
    let amt2 := r.amt - tk
    let rem2 := max 0 (st.systemRemainingTotal - tk)
    if amt2 ≤ 1 / 1000 then
      deactivateResource
        { st with resources := st.resources.set ridx { r with amt := 0 },
                  systemRemainingTotal := rem2 } ridx
    else
      { st with resources := st.resources.set ridx { r with amt := amt2 },
                systemRemainingTotal := rem2 }

/-- The `amt` fields of all resources of the current system, in store
order. -/
def amts (st : SimState) : List ℚ :=
  st.resources.map (fun r => r.amt)

/-- Sum of `amt` over all resources of the current system. -/
def sumAmt (st : SimState) : ℚ :=
  (amts st).sum

/-- The resource-conservation invariant actually maintained by the code:
every `amt` is either exactly 0 or above the `0.001` harvest cutoff, and
`systemRemainingTotal` exceeds the pool sum by at most `0.001` per
depleted (zeroed) resource — the residue of the `r.amt = 0` truncation in
`_harvestFrom`, the only divergence between the two quantities. -/
def harvestInv (st : SimState) : Prop :=
  (∀ a ∈ amts st, a = 0 ∨ (1 / 1000 : ℚ) < a) ∧
  0 ≤ st.systemRemainingTotal - sumAmt st ∧
  st.systemRemainingTotal - sumAmt st
    ≤ 1 / 1000 * ((amts st).countP (fun a => decide (a = 0)) : ℚ)

/-- One harvest event: which resource, the probe's `dna.harvest` rate, and
the timestep. -/
structure HarvestOp where
  ridx : Nat
  rate : ℚ
  dt : ℚ

/-- A sequence of `_harvestFrom` calls applied in order. -/
def runHarvests (st : SimState) (ops : List HarvestOp) : SimState :=
  ops.foldl (fun s o => harvestFrom s o.ridx o.rate o.dt) st

/-- `replicateCost()` from `src/vnp.js`: fixed 100 for everyone. -/
def replicateCost : ℚ := 100

/-- `Probe.replicate(cost)` for the probe at index `i` of the probe list.
`childSeed` packages the randomly drawn child data (offset position,
velocity, mutated DNA, initial `rand(0, 8)` resources); its `resources`
field is overwritten with `CHILD_START_RES` exactly as the source does
immediately after constructing the child. -/
def replicate (mstate : MState) (probes : List Probe) (i : Nat) (cost : ℚ)
    (childSeed : Probe) : List Probe :=
  if HARD_PROBE_CAP ≤ probes.length then probes
  else if (probes.getD i default).resources < cost then probes
  else if mstate ≠ MState.NORMAL then probes
  else
    let p := probes.getD i default
    let probes1 := probes.set i { p with resources := p.resources - cost }
    probes1 ++ [{ childSeed with resources := CHILD_START_RES }]

/-- `Probe.tryAutoReplicate(dt)` for the probe at index `i`; `newCooldown`
is the randomly drawn `rand(1.8, 3.4)` cooldown. -/
def tryAutoReplicate (mstate : MState) (probes : List Probe) (i : Nat)
    (dt : ℚ) (childSeed : Probe) (newCooldown : ℚ) : List Probe :=
  let p := probes.getD i default
  if p.dead ∨ p.isPlayer then probes
  else if dt ≤ 0 then probes
  else if HARD_PROBE_CAP ≤ probes.length then probes
  else if mstate ≠ MState.NORMAL then probes
  else if 0 < p.replCooldown then probes
  else if replicateCost * (108 / 100) ≤ p.resources then  -- cost * 1.08 in the source
    let probes2 := replicate mstate probes i replicateCost childSeed
    probes2.set i { probes2.getD i default with replCooldown := newCooldown }
  else probes

/-- The depletion trigger tested by the `NORMAL` branch of `masterUpdate`:
`systemInitialTotal > 0`, the remaining fraction has dropped to
`1 - MASTER_TRIGGER_DEPLETION`, and at least one probe exists. -/
def rallyTrigger (initial remaining : ℚ) (probeCount : Nat) : Prop :=
  0 < initial ∧
    remaining / initial ≤ 1 - MASTER_TRIGGER_DEPLETION ∧ 1 ≤ probeCount

instance (initial remaining : ℚ) (probeCount : Nat) :
    Decidable (rallyTrigger initial remaining probeCount) := by
  unfold rallyTrigger; infer_instance

/-- The `NORMAL` branch of `masterUpdate(dt)` (the only branch reachable
while `master.state === "NORMAL"`), reduced to the phase value it leaves in
`master.state`.  The other branches read rally-arrival counts and timers and
are modelled separately for the BUILD-phase claims. -/
def masterUpdateNormal (dt initial remaining : ℚ) (probeCount : Nat)
    (st : MState) : MState :=
  if dt ≤ 0 then st
  else if st = MState.NORMAL then
    if 0 < initial then
      if remaining / initial ≤ 1 - MASTER_TRIGGER_DEPLETION ∧ 1 ≤ probeCount
      then MState.RALLY
      else st
    else st
  else st

/-- Iterate `masterUpdateNormal` over a per-tick observation trace of
(`systemRemainingTotal`, probe count), starting in `NORMAL`. -/
def masterRunNormal (dt initial : ℚ) (obs : List (ℚ × Nat)) : MState :=
  obs.foldl (fun st o => masterUpdateNormal dt initial o.1 o.2 st) MState.NORMAL

/-- Claim-relevant fields of the `master` singleton. -/
structure MasterRec where
  state : MState
  t : ℚ
  sacrificed : Nat
  toSacrifice : Nat
deriving DecidableEq, Inhabited

/-- `Probe.beginSacrifice(wp)`. -/
def beginSacrifice (p : Probe) (wp : ℚ × ℚ) (timer : ℚ) : Probe :=
  if p.isPlayer then p
  else { p with sacrificing := true, sacrificeT := timer,
                waypoint := some wp, target := -1 }

/-- `startBuild()` from `src/vnp.js`: enter BUILD, reset the sacrifice
counter, compute the non-player population, set
`toSacrifice = floor(ai.length * 0.10)`, and — unless that is zero — pick
the `toSacrifice` closest non-player probes to the waypoint by quickselect
and begin their sacrifice.  `wp` is `master.waypoint` (set during RALLY; the
source substitutes the world centre if it were missing) and `timers`
supplies each selected probe's random `rand(0.7, 1.25)` countdown, keyed by
probe id.  The warp-machine entity is visual-only and omitted.  Selected
probes are identified by `id`, which is unique in the source
(`_probeId++`). -/
def startBuild (probes : List Probe) (m : MasterRec) (wp : ℚ × ℚ)
    (timers : Nat → ℚ) : List Probe × MasterRec :=
  let m1 := { m with state := MState.BUILD, t := 0, sacrificed := 0 }
  let ai := probes.filter (fun p => !p.isPlayer && !p.dead)
  let toSac := (⌊(ai.length : ℚ) * (10 / 100)⌋).toNat  -- floor(ai.length * 0.10) in the source
  let m2 := { m1 with toSacrifice := toSac }
  if toSac ≤ 0 then (probes, m2)
  else
    let sel := selectKClosestInPlace ai toSac wp
    let chosen := (sel.take toSac).map (fun p => p.id)
    (probes.map (fun p =>
        if chosen.contains p.id then beginSacrifice p wp (timers p.id) else p),
      m2)

/-- The effect of one `Probe.update(dt)` call on the sacrifice fields: a
sacrificing probe counts its `sacrificeT` down and dies at zero
(`sacrificeBehavior`); for every other probe `update` leaves the
sacrifice/death fields untouched (player control, AI steering and harvesting
only modify kinematics, targets and carried resources). -/
def sacUpdate (dt : ℚ) (p : Probe) : Probe :=
  if p.dead ∨ dt ≤ 0 then p
  else if p.sacrificing then
    let t := p.sacrificeT - dt
    if t ≤ 0 then { p with sacrificeT := t, dead := true }
    else { p with sacrificeT := t }
  else p

/-- `startCharge()`. -/
def startCharge (m : MasterRec) : MasterRec :=
  { m with state := MState.CHARGE, t := 0 }

/-- `masterUpdate(dt)` restricted to the BUILD-phase run: the timer bump and
the `BUILD → CHARGE` transition (`startCharge` once
`sacrificed >= toSacrifice`).  The `NORMAL` branch needs the resource totals
(modelled by `masterUpdateNormal`); `RALLY` exits through `startBuild`
before the runs considered here begin; the `CHARGE → WARP` transition
(`performWarp`) regenerates the system and is past the point the sacrifice
claim speaks about, so in this model `CHARGE` only accumulates `t`. -/
def masterUpdateSac (dt : ℚ) (m : MasterRec) : MasterRec :=
  if dt ≤ 0 then m
  else if m.state = MState.NORMAL then m
  else
    let m1 := { m with t := m.t + dt }
    if m1.state = MState.BUILD then
      if m1.toSacrifice ≤ m1.sacrificed then startCharge m1 else m1
    else m1

/-- `purgeSacrificed()`: one compaction pass dropping dead probes and adding
the number of deaths to `master.sacrificed` (the `camFocus` fix-up is
presentation-only). -/
def purgeSacrificed (probes : List Probe) (m : MasterRec) :
    List Probe × MasterRec :=
  let alive := probes.filter (fun p => !p.dead)
  let died := probes.length - alive.length
  (alive, if 0 < died then { m with sacrificed := m.sacrificed + died } else m)

/-- One `simStep(dt)` during the BUILD/CHARGE phases, restricted to the
fields the sacrifice-accounting claim is about: probe updates (timer
countdown and deaths), then `masterUpdate`, then the compaction pass.  The
harvest phase touches only resource amounts and carried totals, and the
replication phase is skipped outright because `master.state` is not
`NORMAL`. -/
def buildTick (dt : ℚ) (s : List Probe × MasterRec) : List Probe × MasterRec :=
  let ps1 := s.1.map (sacUpdate dt)
  let m1 := masterUpdateSac dt s.2
  purgeSacrificed ps1 m1

/-- `n` BUILD-phase simulation steps. -/
def buildRun (dt : ℚ) (s : List Probe × MasterRec) (n : Nat) :
    List Probe × MasterRec :=
  (buildTick dt)^[n] s

/-- Number of live sacrificing probes in a list. -/
def countSac (probes : List Probe) : Nat :=
  (probes.filter (fun p => p.sacrificing && !p.dead)).length

/-- The sacrifice-accounting invariant of the BUILD/CHARGE phases: the probe
list is compacted (no dead probes survive `purgeSacrificed`), the player is
never sacrificing, `toSacrifice` is pinned at `K`, and either the phase is
BUILD with `sacrificed` plus the live sacrificing population summing to `K`,
or the phase is CHARGE with `sacrificed = K` and nobody left sacrificing. -/
def BInv (K : Nat) (s : List Probe × MasterRec) : Prop :=
  (∀ p ∈ s.1, p.dead = false) ∧
  (∀ p ∈ s.1, p.isPlayer = true → p.sacrificing = false) ∧
  s.2.toSacrifice = K ∧
  ((s.2.state = MState.BUILD ∧ s.2.sacrificed + countSac s.1 = K) ∨
    (s.2.state = MState.CHARGE ∧ s.2.sacrificed = K ∧ countSac s.1 = 0))

/-- Position bounds of every resource in the pool (positions are drawn in
`spawnSystem` inside the world rectangle and never move afterwards). -/
def boundsOk (st : SimState) : Prop :=
  ∀ r ∈ st.resources, 0 ≤ r.x ∧ r.x < WORLD.w ∧ 0 ≤ r.y ∧ r.y < WORLD.h

/-- Cell-side consistency: every index stored in a grid cell is a valid
resource index whose back-references (`_gridCell`, `_gridIndex`) point back
at exactly its own slot. -/
def cellsOk (st : SimState) : Prop :=
  ∀ c, c < st.resGrid.length →
    ∀ k, k < (st.resGrid.getD c []).length →
      (st.resGrid.getD c []).getD k 0 < st.resources.length ∧
      (st.resources.getD ((st.resGrid.getD c []).getD k 0) default).gridCell
        = (c : Int) ∧
      (st.resources.getD ((st.resGrid.getD c []).getD k 0) default).gridIndex
        = (k : Int)

/-- Resource-side consistency for active resources: the back-references of
an active resource name exactly the cell computed from its current position
(`cellIndexForPos`) and a valid slot of that cell holding its index. -/
def activePlaced (st : SimState) : Prop :=
  ∀ idx, idx < st.resources.length →
    (st.resources.getD idx default).active = true →
      (st.resources.getD idx default).gridCell
          = cellIndexForPos (st.resources.getD idx default).x
              (st.resources.getD idx default).y ∧
      0 ≤ (st.resources.getD idx default).gridIndex ∧
      (st.resources.getD idx default).gridIndex
          < ((st.resGrid.getD (st.resources.getD idx default).gridCell.toNat
              []).length : Int) ∧
      (st.resGrid.getD (st.resources.getD idx default).gridCell.toNat
          []).getD (st.resources.getD idx default).gridIndex.toNat 0 = idx

/-- Resource-side consistency for inactive resources: cleared
back-references. -/
def inactiveDetached (st : SimState) : Prop :=
  ∀ idx, idx < st.resources.length →
    (st.resources.getD idx default).active = false →
      (st.resources.getD idx default).gridCell = -1 ∧
      (st.resources.getD idx default).gridIndex = -1

/-- Grid well-formedness and the grid-consistency invariant: the grid has
its `initResGrid` shape, every stored index points back at its own slot
through `_gridCell`/`_gridIndex`, every active resource sits (by its
back-references) in exactly the cell computed from its current position, and
every inactive resource has cleared back-references. -/
def GridInv (st : SimState) : Prop :=
  st.resGrid.length = (resGridW * resGridH).toNat ∧
  boundsOk st ∧ cellsOk st ∧ activePlaced st ∧ inactiveDetached st

instance (st : SimState) : Decidable (boundsOk st) := by
  unfold boundsOk
  infer_instance

instance (st : SimState) : Decidable (cellsOk st) := by
  unfold cellsOk
  infer_instance

instance (st : SimState) : Decidable (activePlaced st) := by
  unfold activePlaced
  infer_instance

instance (st : SimState) : Decidable (inactiveDetached st) := by
  unfold inactiveDetached
  infer_instance

instance (st : SimState) : Decidable (GridInv st) := by
  unfold GridInv
  infer_instance

/-- Concrete probe fixture used to evaluate the verified statements on
explicit inputs (an AI probe at a given position carrying `res`). -/
def sampleProbe (i : Nat) (px py res : ℚ) : Probe :=
  { id := i, isPlayer := false, x := px, y := py, resources := res,
    target := -1, replCooldown := 0, waypoint := none,
    sacrificing := false, sacrificeT := 0, dead := false }

/-- Concrete player-probe fixture. -/
def samplePlayer (px py res : ℚ) : Probe :=
  { id := 0, isPlayer := true, x := px, y := py, resources := res,
    target := -1, replCooldown := 0, waypoint := none,
    sacrificing := false, sacrificeT := 0, dead := false }

/-- Concrete BUILD-phase fixture: the player plus ten AI probes on a line,
used to evaluate the sacrifice-accounting statement on explicit input. -/
def sacW : List Probe :=
  samplePlayer 0 0 0
    :: (List.range 10).map (fun i => sampleProbe (i + 1) ((i : ℚ)) 0 12)

/-! ## Generic list helpers -/

theorem getD_set_self {α : Type} (l : List α) (i : Nat) (a d : α)
    (h : i < l.length) : (l.set i a).getD i d = a := by
  rw [List.getD_eq_getElem?_getD, List.getElem?_set_self (by simpa using h)]
  rfl

theorem getD_set_ne {α : Type} (l : List α) (i j : Nat) (a d : α)
    (h : i ≠ j) : (l.set i a).getD j d = l.getD j d := by
  rw [List.getD_eq_getElem?_getD, List.getElem?_set_ne h,
    List.getD_eq_getElem?_getD]

theorem getD_of_length_le {α : Type} (l : List α) (i : Nat) (d : α)
    (h : l.length ≤ i) : l.getD i d = d := by
  rw [List.getD_eq_getElem?_getD, List.getElem?_eq_none (by omega)]
  rfl

theorem getD_append_left {α : Type} (l l2 : List α) (i : Nat) (d : α)
    (h : i < l.length) : (l ++ l2).getD i d = l.getD i d := by
  rw [List.getD_eq_getElem?_getD, List.getElem?_append_left h,
    List.getD_eq_getElem?_getD]

theorem getD_append_last {α : Type} (l : List α) (a d : α) :
    (l ++ [a]).getD l.length d = a := by
  rw [List.getD_eq_getElem?_getD]
  simp

theorem set_getD_self {α : Type} (l : List α) (i : Nat) (d : α) :
    l.set i (l.getD i d) = l := by
  rcases lt_or_le i l.length with h | h
  · rw [List.getD_eq_getElem l d h]
    apply List.ext_getElem (by simp)
    intro n h1 h2
    by_cases hn : n = i
    · subst hn; rw [List.getElem_set_self]
    · rw [List.getElem_set_ne (by omega)]
  · exact List.set_eq_of_length_le h

theorem perm_cons_set {α : Type} (xs : List α) (m : Nat) (x d : α)
    (h : m < xs.length) :
    List.Perm (xs.getD m d :: xs.set m x) (x :: xs) := by
  induction xs generalizing m with
  | nil => simp at h
  | cons y t ih =>
    cases m with
    | zero =>
      simp only [List.getD_cons_zero, List.set_cons_zero]
      exact List.Perm.swap x y t
    | succ k =>
      have hk : k < t.length := by simpa using h
      simp only [List.getD_cons_succ, List.set_cons_succ]
      exact ((List.Perm.swap y (t.getD k d) (t.set k x)).trans
        (List.Perm.cons y (ih k hk))).trans (List.Perm.swap x y t)

theorem swap_length {α : Type} [Inhabited α] (l : List α) (i j : Nat) :
    (swap l i j).length = l.length := by
  simp [swap]

theorem swap_perm {α : Type} [Inhabited α] (l : List α) (i j : Nat)
    (h1 : i < l.length) (h2 : j < l.length) : List.Perm (swap l i j) l := by
  induction l generalizing i j with
  | nil => simp at h1
  | cons y t ih =>
    cases i with
    | zero =>
      cases j with
      | zero => simp [swap]
      | succ m =>
        have hm : m < t.length := by simpa using h2
        have : swap (y :: t) 0 (m + 1) = t.getD m default :: t.set m y := by
          simp [swap, List.getD_cons_succ]
        rw [this]
        exact perm_cons_set t m y default hm
    | succ k =>
      cases j with
      | zero =>
        have hk : k < t.length := by simpa using h1
        have : swap (y :: t) (k + 1) 0 = t.getD k default :: t.set k y := by
          simp [swap, List.getD_cons_succ]
        rw [this]
        exact perm_cons_set t k y default hk
      | succ m =>
        have hk : k < t.length := by simpa using h1
        have hm : m < t.length := by simpa using h2
        have : swap (y :: t) (k + 1) (m + 1) = y :: swap t k m := by
          simp [swap, List.getD_cons_succ]
        rw [this]
        exact List.Perm.cons y (ih k m hk hm)

theorem swap_getD_right {α : Type} [Inhabited α] (l : List α) (i j : Nat)
    (h2 : j < l.length) :
    (swap l i j).getD j default = l.getD i default := by
  unfold swap
  exact getD_set_self _ j _ _ (by simpa using h2)

theorem swap_getD_left {α : Type} [Inhabited α] (l : List α) (i j : Nat)
    (h1 : i < l.length) :
    (swap l i j).getD i default =
      if i = j then l.getD i default else l.getD j default := by
  by_cases h : i = j
  · subst h
    simp only [if_pos rfl]
    exact swap_getD_right l i i (by simpa using h1)
  · rw [if_neg h]
    unfold swap
    rw [getD_set_ne _ j i _ _ (fun hj => h hj.symm),
      getD_set_self _ i _ _ h1]

theorem swap_getD_other {α : Type} [Inhabited α] (l : List α) (i j m : Nat)
    (hm1 : m ≠ i) (hm2 : m ≠ j) :
    (swap l i j).getD m default = l.getD m default := by
  unfold swap
  rw [getD_set_ne _ j m _ _ (fun hj => hm2 hj.symm),
    getD_set_ne _ i m _ _ (fun hi => hm1 hi.symm)]

theorem swap_take {α : Type} [Inhabited α] (l : List α) (i j n : Nat)
    (hi : n ≤ i) (hj : n ≤ j) : (swap l i j).take n = l.take n := by
  unfold swap
  rw [List.set_take, List.set_take,
    List.set_eq_of_length_le (by simp; omega),
    List.set_eq_of_length_le (by simp; omega)]

theorem swap_drop {α : Type} [Inhabited α] (l : List α) (i j n : Nat)
    (hi : i < n) (hj : j < n) : (swap l i j).drop n = l.drop n := by
  unfold swap
  rw [List.drop_set_of_lt _ _ hj, List.drop_set_of_lt _ _ hi]

theorem sum_set (l : List ℚ) (i : Nat) (a : ℚ) (h : i < l.length) :
    (l.set i a).sum = l.sum - l.getD i 0 + a := by
  induction l generalizing i with
  | nil => simp at h
  | cons x t ih =>
    cases i with
    | zero => simp [List.getD_cons_zero]; ring
    | succ k =>
      have hk : k < t.length := by simpa using h
      simp only [List.set_cons_succ, List.sum_cons, List.getD_cons_succ,
        ih k hk]
      ring

theorem countP_set_of_false (p : ℚ → Bool) (l : List ℚ) (i : Nat) (a : ℚ)
    (h : i < l.length) (ha : p a = false) (hi : p (l.getD i 0) = false) :
    (l.set i a).countP p = l.countP p := by
  induction l generalizing i with
  | nil => simp at h
  | cons x t ih =>
    cases i with
    | zero =>
      rw [List.getD_cons_zero] at hi
      simp [List.countP_cons, ha, hi]
    | succ k =>
      have hk : k < t.length := by simpa using h
      rw [List.getD_cons_succ] at hi
      simp [List.countP_cons, ih k hk hi]

theorem countP_set_of_true (p : ℚ → Bool) (l : List ℚ) (i : Nat) (a : ℚ)
    (h : i < l.length) (ha : p a = true) (hi : p (l.getD i 0) = false) :
    (l.set i a).countP p = l.countP p + 1 := by
  induction l generalizing i with
  | nil => simp at h
  | cons x t ih =>
    cases i with
    | zero =>
      rw [List.getD_cons_zero] at hi
      simp [List.countP_cons, ha, hi]
    | succ k =>
      have hk : k < t.length := by simpa using h
      rw [List.getD_cons_succ] at hi
      simp only [List.set_cons_succ, List.countP_cons, ih k hk hi]
      omega

/-! ## Toroidal wrapping: C6 and C7 -/

theorem jsMod_nonneg_bounds (v s : ℚ) (hs : 0 < s) (hv : 0 ≤ v) :
    0 ≤ jsMod v s ∧ jsMod v s < s := by
  have hq : (0 : ℚ) ≤ v / s := div_nonneg hv hs.le
  have hfl : ((⌊v / s⌋ : ℤ) : ℚ) ≤ v / s := Int.floor_le _
  have hfu : v / s < (⌊v / s⌋ : ℚ) + 1 := Int.lt_floor_add_one _
  have hvs : s * (v / s) = v := by field_simp
  have h1 : s * ((⌊v / s⌋ : ℤ) : ℚ) ≤ v := by
    calc s * ((⌊v / s⌋ : ℤ) : ℚ) ≤ s * (v / s) :=
          mul_le_mul_of_nonneg_left hfl hs.le
      _ = v := hvs
  have h2 : v < s * ((⌊v / s⌋ : ℤ) : ℚ) + s := by
    calc v = s * (v / s) := hvs.symm
      _ < s * ((⌊v / s⌋ : ℚ) + 1) := by
          exact mul_lt_mul_of_pos_left hfu hs
      _ = s * ((⌊v / s⌋ : ℤ) : ℚ) + s := by ring
  unfold jsMod truncQ
  rw [if_pos hq]
  constructor <;> linarith

theorem jsMod_neg_bounds (v s : ℚ) (hs : 0 < s) (hv : v < 0) :
    -s < jsMod v s ∧ jsMod v s ≤ 0 := by
  have hq : ¬ (0 : ℚ) ≤ v / s := by
    simp only [not_le]
    exact div_neg_of_neg_of_pos hv hs
  have hcl : v / s ≤ ((⌈v / s⌉ : ℤ) : ℚ) := Int.le_ceil _
  have hcu : ((⌈v / s⌉ : ℤ) : ℚ) < v / s + 1 := Int.ceil_lt_add_one _
  have hvs : s * (v / s) = v := by field_simp
  have h1 : v ≤ s * ((⌈v / s⌉ : ℤ) : ℚ) := by
    calc v = s * (v / s) := hvs.symm
      _ ≤ s * ((⌈v / s⌉ : ℤ) : ℚ) := mul_le_mul_of_nonneg_left hcl hs.le
  have h2 : s * ((⌈v / s⌉ : ℤ) : ℚ) < v + s := by
    calc s * ((⌈v / s⌉ : ℤ) : ℚ) < s * (v / s + 1) :=
          mul_lt_mul_of_pos_left hcu hs
      _ = v + s := by rw [mul_add, hvs]; ring
  unfold jsMod truncQ
  rw [if_neg hq]
  constructor <;> linarith

theorem wrap01Fast_bounds (v s : ℚ) (hs : 0 < s) :
    0 ≤ wrap01Fast v s ∧ wrap01Fast v s < s := by
  simp only [wrap01Fast]
  generalize (if v < 0 then v + s else if s ≤ v then v - s else v) = w
  by_cases hout : w < 0 ∨ s ≤ w
  · rw [if_pos hout]
    rcases lt_or_le w 0 with hneg | hpos
    · obtain ⟨hl, hr⟩ := jsMod_neg_bounds w s hs hneg
      by_cases hz : jsMod w s < 0
      · rw [if_pos hz]; constructor <;> linarith
      · rw [if_neg hz]; constructor <;> linarith
    · obtain ⟨hl, hr⟩ := jsMod_nonneg_bounds w s hs hpos
      by_cases hz : jsMod w s < 0
      · rw [if_pos hz]; constructor <;> linarith
      · rw [if_neg hz]; constructor <;> linarith
  · rw [if_neg hout]
    push_neg at hout
    exact ⟨hout.1, hout.2⟩

theorem wrap01Fast_of_mem (v s : ℚ) (h0 : 0 ≤ v) (h1 : v < s) :
    wrap01Fast v s = v := by
  simp only [wrap01Fast]
  rw [if_neg (not_lt.mpr h0), if_neg (not_le.mpr h1),
    if_neg (by push_neg; exact ⟨h0, h1⟩)]

/-- Claim C7: for every value `v` and every world size `s > 0`,
`wrap01Fast` is idempotent — `wrap01Fast (wrap01Fast v s) s =
wrap01Fast v s` — and its result always lies in `[0, s)`, including for
out-of-range magnitudes handled by the modulo fallback. -/
theorem wrap01Fast_idempotent_and_in_range (v s : ℚ) (hs : 0 < s) :
    (0 ≤ wrap01Fast v s ∧ wrap01Fast v s < s) ∧
    wrap01Fast (wrap01Fast v s) s = wrap01Fast v s := by
  obtain ⟨h0, h1⟩ := wrap01Fast_bounds v s hs
  exact ⟨⟨h0, h1⟩, wrap01Fast_of_mem _ _ h0 h1⟩

theorem wrap01Fast_idempotent_and_in_range_witness :
    (0 : ℚ) < 3 ∧
    ((0 ≤ wrap01Fast (-50) 3 ∧ wrap01Fast (-50) 3 < 3) ∧
      wrap01Fast (wrap01Fast (-50) 3) 3 = wrap01Fast (-50) 3) :=
  ⟨by norm_num, wrap01Fast_idempotent_and_in_range (-50) 3 (by norm_num)⟩

/-- Claim C6 counterexample: with `size = 2`, the raw difference `d = -1`
(which is `-size/2`, and arises from in-range coordinates, e.g. `0 - 1`) is
returned unchanged by `wrapDeltaFast`, so the result does NOT lie in the
claimed half-open interval `(-size/2, size/2]`. -/
theorem wrapDeltaFast_left_endpoint_cex :
    wrapDeltaFast (-1) 2 = -1 ∧
    ¬ (-((2 : ℚ) / 2) < wrapDeltaFast (-1) 2 ∧
        wrapDeltaFast (-1) 2 ≤ (2 : ℚ) / 2) := by
  norm_num [wrapDeltaFast]

/-- Claim C6 (amended): for every `size > 0` and every raw difference
`d ∈ [-size, size]`, `wrapDeltaFast d size` is congruent to `d` modulo
`size` and lies in the CLOSED interval `[-size/2, size/2]`; the left
endpoint `-size/2` is returned unchanged rather than normalised to
`size/2`. -/
theorem wrapDeltaFast_congr_and_range (d s : ℚ) (hs : 0 < s)
    (hlo : -s ≤ d) (hhi : d ≤ s) :
    (∃ k : ℤ, wrapDeltaFast d s = d + k * s) ∧
    -(s / 2) ≤ wrapDeltaFast d s ∧ wrapDeltaFast d s ≤ s / 2 := by
  have hhalf : s * ((1 : ℚ) / 2) = s / 2 := by
    ring
  simp only [wrapDeltaFast]
  split_ifs with h1 h2
  · rw [hhalf] at h1
    exact ⟨⟨-1, by push_cast; ring⟩, by constructor <;> linarith⟩
  · rw [hhalf] at h2
    exact ⟨⟨1, by push_cast; ring⟩, by constructor <;> linarith⟩
  · rw [hhalf] at h1 h2
    push_neg at h1 h2
    exact ⟨⟨0, by push_cast; ring⟩, by constructor <;> linarith⟩

theorem wrapDeltaFast_congr_and_range_witness :
    ((0 : ℚ) < 4 ∧ -(4 : ℚ) ≤ 3 ∧ (3 : ℚ) ≤ 4) ∧
    ((∃ k : ℤ, wrapDeltaFast 3 4 = 3 + k * 4) ∧
      -((4 : ℚ) / 2) ≤ wrapDeltaFast 3 4 ∧ wrapDeltaFast 3 4 ≤ (4 : ℚ) / 2) :=
  ⟨by norm_num,
    wrapDeltaFast_congr_and_range 3 4 (by norm_num) (by norm_num) (by norm_num)⟩

/-! ## Replication: C5 and C9 -/

/-- Claim C9: a replication request made when the population is at or above
`HARD_PROBE_CAP`, or while `master.state` is not `NORMAL`, is silently
dropped: both `tryAutoReplicate` and `replicate` (total functions — no
error path exists in the embedding, as in the source) return the probe list
unchanged, so carried resources and all other state are untouched. -/
theorem replication_request_dropped (mstate : MState) (probes : List Probe)
    (i : Nat) (cost dt newCooldown : ℚ) (childSeed : Probe)
    (h : HARD_PROBE_CAP ≤ probes.length ∨ mstate ≠ MState.NORMAL) :
    tryAutoReplicate mstate probes i dt childSeed newCooldown = probes ∧
    replicate mstate probes i cost childSeed = probes := by
  constructor
  · simp only [tryAutoReplicate]
    split_ifs <;> first | rfl | tauto
  · simp only [replicate]
    split_ifs <;> first | rfl | tauto

theorem replication_request_dropped_witness :
    (HARD_PROBE_CAP ≤ [sampleProbe 1 0 0 500].length ∨
      MState.RALLY ≠ MState.NORMAL) ∧
    (tryAutoReplicate MState.RALLY [sampleProbe 1 0 0 500] 0 1
        (sampleProbe 2 0 0 0) 2 = [sampleProbe 1 0 0 500] ∧
      replicate MState.RALLY [sampleProbe 1 0 0 500] 0 100
        (sampleProbe 2 0 0 0) = [sampleProbe 1 0 0 500]) :=
  ⟨Or.inr (by decide),
    replication_request_dropped MState.RALLY [sampleProbe 1 0 0 500] 0 100 1 2
      (sampleProbe 2 0 0 0) (Or.inr (by decide))⟩

/-- Claim C5: a probe whose carried resources are below the fixed
replication cost (100) never successfully replicates — both `replicate` and
`tryAutoReplicate` leave the probe list unchanged — and a probe at or above
the cost that does replicate loses exactly the cost while exactly one child
is appended whose carried total is `CHILD_START_RES = 12` (all other probes
are untouched). -/
theorem replicate_cost_invariant (mstate : MState) (probes : List Probe)
    (i : Nat) (dt newCooldown : ℚ) (childSeed : Probe) :
    ((probes.getD i default).resources < replicateCost →
      replicate mstate probes i replicateCost childSeed = probes ∧
      tryAutoReplicate mstate probes i dt childSeed newCooldown = probes) ∧
    (i < probes.length →
      probes.length < HARD_PROBE_CAP →
      mstate = MState.NORMAL →
      replicateCost ≤ (probes.getD i default).resources →
      (replicate mstate probes i replicateCost childSeed).length
          = probes.length + 1 ∧
      ((replicate mstate probes i replicateCost childSeed).getD i
          default).resources
          = (probes.getD i default).resources - replicateCost ∧
      ((replicate mstate probes i replicateCost childSeed).getD probes.length
          default).resources = CHILD_START_RES ∧
      (∀ j, j < probes.length → j ≠ i →
        (replicate mstate probes i replicateCost childSeed).getD j default
          = probes.getD j default)) := by
  constructor
  · intro hlow
    constructor
    · simp only [replicate]
      split_ifs <;> first | rfl | tauto
    · have h108 : ¬ (replicateCost * (108 / 100) ≤ (probes.getD i default).resources) := by
        simp only [replicateCost] at hlow ⊢
        intro hc
        rw [show (100 : ℚ) * (108 / 100) = 108 by norm_num] at hc
        linarith
      simp only [tryAutoReplicate]
      split_ifs <;> first | rfl | tauto
  · intro hi hcap hst hres
    have hgoal : replicate mstate probes i replicateCost childSeed
        = (probes.set i
            { probes.getD i default with
                resources := (probes.getD i default).resources - replicateCost })
          ++ [{ childSeed with resources := CHILD_START_RES }] := by
      simp only [replicate]
      rw [if_neg (by omega), if_neg (not_lt.mpr hres),
        if_neg (by simp [hst])]
    rw [hgoal]
    have hlen1 : (probes.set i
        { probes.getD i default with
            resources := (probes.getD i default).resources - replicateCost }).length
        = probes.length := by simp
    refine ⟨by simp, ?_, ?_, ?_⟩
    · rw [getD_append_left _ _ _ _ (by simpa using hi),
        getD_set_self _ _ _ _ (by simpa using hi)]
    · rw [show probes.length
          = (probes.set i
              { probes.getD i default with
                  resources := (probes.getD i default).resources - replicateCost }).length
          from hlen1.symm,
        getD_append_last]
    · intro j hj hji
      rw [getD_append_left _ _ _ _ (by simpa using hj),
        getD_set_ne _ _ _ _ _ (fun hij => hji hij.symm)]

theorem replicate_cost_invariant_witness :
    (([sampleProbe 1 0 0 50].getD 0 default).resources < replicateCost ∧
      replicate MState.NORMAL [sampleProbe 1 0 0 50] 0 replicateCost
        (sampleProbe 2 0 0 0) = [sampleProbe 1 0 0 50]) ∧
    (0 < [sampleProbe 1 0 0 150].length ∧
      (replicate MState.NORMAL [sampleProbe 1 0 0 150] 0 replicateCost
        (sampleProbe 2 0 0 0)).length = 2 ∧
      ((replicate MState.NORMAL [sampleProbe 1 0 0 150] 0 replicateCost
        (sampleProbe 2 0 0 0)).getD 0 default).resources = 50 ∧
      ((replicate MState.NORMAL [sampleProbe 1 0 0 150] 0 replicateCost
        (sampleProbe 2 0 0 0)).getD 1 default).resources = CHILD_START_RES) := by
  have h1 := (replicate_cost_invariant MState.NORMAL [sampleProbe 1 0 0 50] 0 1 2
    (sampleProbe 2 0 0 0)).1 (by norm_num [sampleProbe, replicateCost])
  have h2 := (replicate_cost_invariant MState.NORMAL [sampleProbe 1 0 0 150] 0 1 2
    (sampleProbe 2 0 0 0)).2 (by norm_num) (by norm_num [HARD_PROBE_CAP]) rfl
    (by norm_num [sampleProbe, replicateCost])
  refine ⟨⟨by norm_num [sampleProbe, replicateCost], h1.1⟩,
    by norm_num, by simpa using h2.1, ?_, by simpa using h2.2.2.1⟩
  have := h2.2.1
  rw [this]
  norm_num [sampleProbe, replicateCost]

/-! ## Master AI depletion trigger: C4 -/

theorem masterUpdateNormal_step (dt initial r : ℚ) (c : Nat) (hdt : 0 < dt) :
    masterUpdateNormal dt initial r c MState.NORMAL
      = if rallyTrigger initial r c then MState.RALLY else MState.NORMAL := by
  unfold masterUpdateNormal rallyTrigger
  rw [if_neg (not_le.mpr hdt), if_pos rfl]
  split_ifs <;> tauto

theorem masterRunNormal_take_succ (dt initial : ℚ) (obs : List (ℚ × Nat))
    (t : Nat) (ht : t < obs.length) :
    masterRunNormal dt initial (obs.take (t + 1))
      = masterUpdateNormal dt initial (obs.getD t (0, 0)).1
          (obs.getD t (0, 0)).2 (masterRunNormal dt initial (obs.take t)) := by
  unfold masterRunNormal
  rw [List.take_succ, List.getElem?_eq_getElem ht]
  simp only [Option.toList_some, List.foldl_append, List.foldl_cons,
    List.foldl_nil, List.getD_eq_getElem _ _ ht]

/-- Claim C4: while `master.state` is `NORMAL`, the transition to `RALLY`
happens on the first tick at which the depletion condition holds
(`systemInitialTotal > 0`, `systemRemainingTotal / systemInitialTotal ≤
1 - 0.90`) together with `probes.length ≥ 1`, and on no earlier tick.  The
trace `obs` lists the per-tick observations (remaining total, probe count);
`T` is the first index satisfying the trigger. -/
theorem normal_to_rally_on_first_trigger_tick (dt initial : ℚ)
    (obs : List (ℚ × Nat)) (T : Nat) (hdt : 0 < dt) (hT : T < obs.length)
    (hbefore : ∀ t, t < T →
      ¬ rallyTrigger initial (obs.getD t (0, 0)).1 (obs.getD t (0, 0)).2)
    (hat : rallyTrigger initial (obs.getD T (0, 0)).1 (obs.getD T (0, 0)).2) :
    (∀ t, t ≤ T → masterRunNormal dt initial (obs.take t) = MState.NORMAL) ∧
    masterRunNormal dt initial (obs.take (T + 1)) = MState.RALLY := by
  have hnorm : ∀ t, t ≤ T → masterRunNormal dt initial (obs.take t) = MState.NORMAL := by
    intro t
    induction t with
    | zero =>
      intro
      simp [masterRunNormal]
    | succ s ih =>
      intro hsT
      have hsT' : s < T := by omega
      have hslen : s < obs.length := by omega
      rw [masterRunNormal_take_succ dt initial obs s hslen, ih (by omega),
        masterUpdateNormal_step _ _ _ _ hdt, if_neg (hbefore s hsT')]
  refine ⟨hnorm, ?_⟩
  rw [masterRunNormal_take_succ dt initial obs T hT, hnorm T le_rfl,
    masterUpdateNormal_step _ _ _ _ hdt, if_pos hat]

theorem normal_to_rally_on_first_trigger_tick_witness :
    ((0 : ℚ) < 1 ∧ 1 < [((50 : ℚ), 1), ((9 : ℚ), 1)].length ∧
      ¬ rallyTrigger 100 50 1 ∧ rallyTrigger 100 9 1) ∧
    ((∀ t, t ≤ 1 →
        masterRunNormal 1 100 ([((50 : ℚ), 1), ((9 : ℚ), 1)].take t)
          = MState.NORMAL) ∧
      masterRunNormal 1 100 ([((50 : ℚ), 1), ((9 : ℚ), 1)].take 2)
        = MState.RALLY) := by
  have htrig1 : ¬ rallyTrigger 100 50 1 := by
    unfold rallyTrigger MASTER_TRIGGER_DEPLETION
    norm_num
  have htrig2 : rallyTrigger 100 9 1 := by
    unfold rallyTrigger MASTER_TRIGGER_DEPLETION
    norm_num
  refine ⟨⟨by norm_num, by norm_num, htrig1, htrig2⟩, ?_⟩
  exact normal_to_rally_on_first_trigger_tick 1 100 [(50, 1), (9, 1)] 1
    (by norm_num) (by norm_num)
    (by intro t ht
        interval_cases t
        simpa using htrig1)
    (by simpa using htrig2)

/-! ## Quickselect: C2 and C10 -/

theorem partGo_store_bounds {α : Type} [Inhabited α] (key : α → ℚ) (pv : ℚ)
    (right : Nat) :
    ∀ (fuel : Nat) (l : List α) (store i : Nat), store ≤ i → i ≤ right →
      store ≤ (partGo key pv right fuel l store i).2 ∧
      (partGo key pv right fuel l store i).2 ≤ right := by
  intro fuel
  induction fuel with
  | zero =>
    intro l store i hsi hir
    rw [partGo]
    exact ⟨le_refl _, by omega⟩
  | succ fuel ih =>
    intro l store i hsi hir
    rw [partGo]
    by_cases hi : i < right
    · rw [if_pos hi]
      by_cases hkey : key (l.getD i default) < pv
      · rw [if_pos hkey]
        have := ih (swap l store i) (store + 1) (i + 1) (by omega) (by omega)
        exact ⟨by omega, this.2⟩
      · rw [if_neg hkey]
        exact ih l store (i + 1) (by omega) (by omega)
    · rw [if_neg hi]
      exact ⟨le_refl _, by omega⟩

theorem partitionByD2_pivot_bounds {α : Type} [Inhabited α] (key : α → ℚ)
    (l : List α) (left right pivotIndex : Nat) (h : left ≤ right) :
    left ≤ (partitionByD2 key l left right pivotIndex).2 ∧
    (partitionByD2 key l left right pivotIndex).2 ≤ right := by
  unfold partitionByD2
  exact partGo_store_bounds key _ right _ _ left left (le_refl _) h

theorem selectLoopF_isSome {α : Type} [Inhabited α] (key : α → ℚ) :
    ∀ (fuel : Nat) (l : List α) (k left right : Nat), right - left < fuel →
      (selectLoopF key fuel l k left right).isSome = true := by
  intro fuel
  induction fuel with
  | zero => intro l k left right h; omega
  | succ fuel ih =>
    intro l k left right h
    rw [selectLoopF]
    by_cases hlr : right ≤ left
    · rw [if_pos hlr]; rfl
    · rw [if_neg hlr]
      have hb := partitionByD2_pivot_bounds key l left right ((left + right) / 2)
        (by omega)
      by_cases h1 : (k : Int) - 1 = ((partitionByD2 key l left right ((left + right) / 2)).2 : Int)
      · rw [if_pos h1]; rfl
      · rw [if_neg h1]
        by_cases h2 : (k : Int) - 1 < ((partitionByD2 key l left right ((left + right) / 2)).2 : Int)
        · rw [if_pos h2]
          exact ih _ _ _ _ (by omega)
        · rw [if_neg h2]
          exact ih _ _ _ _ (by omega)

theorem partGo_spec {α : Type} [Inhabited α] (key : α → ℚ) (pv : ℚ)
    (right lo : Nat) :
    ∀ (fuel : Nat) (l : List α) (store i : Nat),
      lo ≤ store → store ≤ i → i ≤ right → right < l.length →
      (∀ m, lo ≤ m → m < store → key (l.getD m default) < pv) →
      (∀ m, store ≤ m → m < i → ¬ key (l.getD m default) < pv) →
      right - i ≤ fuel →
      (partGo key pv right fuel l store i).1.length = l.length ∧
      List.Perm (partGo key pv right fuel l store i).1 l ∧
      (∀ m, m < lo ∨ right ≤ m →
        (partGo key pv right fuel l store i).1.getD m default
          = l.getD m default) ∧
      (∀ m, lo ≤ m → m < (partGo key pv right fuel l store i).2 →
        key ((partGo key pv right fuel l store i).1.getD m default) < pv) ∧
      (∀ m, (partGo key pv right fuel l store i).2 ≤ m → m < right →
        ¬ key ((partGo key pv right fuel l store i).1.getD m default) < pv)
    := by
  intro fuel
  induction fuel with
  | zero =>
    intro l store i h1 h2 h3 h4 h5 h6 hfuel
    rw [partGo]
    refine ⟨rfl, List.Perm.refl l, fun m _ => rfl, h5, ?_⟩
    intro m hm1 hm2
    exact h6 m hm1 (by omega)
  | succ fuel ih =>
    intro l store i h1 h2 h3 h4 h5 h6 hfuel
    rw [partGo]
    by_cases hi : i < right
    swap
    · rw [if_neg hi]
      refine ⟨rfl, List.Perm.refl l, fun m _ => rfl, h5, ?_⟩
      intro m hm1 hm2
      exact h6 m hm1 (by omega)
    have hstl : store < l.length := by omega
    have hil : i < l.length := by omega
    rw [if_pos hi]
    by_cases hkey : key (l.getD i default) < pv
    · rw [if_pos hkey]
      have hlen2 : (swap l store i).length = l.length := swap_length l store i
      have h5' : ∀ m, lo ≤ m → m < store + 1 →
          key ((swap l store i).getD m default) < pv := by
        intro m hm1 hm2
        by_cases hms : m = store
        · subst hms
          rw [swap_getD_left l m i hstl]
          by_cases hmi : m = i
          · rw [if_pos hmi]
            rw [hmi]
            exact hkey
          · rw [if_neg hmi]
            exact hkey
        · have hmlt : m < store := by omega
          rw [swap_getD_other l store i m hms (by omega)]
          exact h5 m hm1 hmlt
      have h6' : ∀ m, store + 1 ≤ m → m < i + 1 →
          ¬ key ((swap l store i).getD m default) < pv := by
        intro m hm1 hm2
        by_cases hmi : m = i
        · subst hmi
          rw [swap_getD_right l store m hil]
          exact h6 store (le_refl _) (by omega)
        · rw [swap_getD_other l store i m (by omega) hmi]
          exact h6 m (by omega) (by omega)
      obtain ⟨c1, c2, c3, c4, c5⟩ := ih (swap l store i) (store + 1) (i + 1)
        (by omega) (by omega) (by omega) (by omega) h5' h6' (by omega)
      refine ⟨c1.trans hlen2, c2.trans (swap_perm l store i hstl hil), ?_, c4, c5⟩
      intro m hm
      rw [c3 m hm, swap_getD_other l store i m (by omega) (by omega)]
    · rw [if_neg hkey]
      have h6' : ∀ m, store ≤ m → m < i + 1 →
          ¬ key (l.getD m default) < pv := by
        intro m hm1 hm2
        by_cases hmi : m = i
        · subst hmi; exact hkey
        · exact h6 m hm1 (by omega)
      exact ih l store (i + 1) h1 (by omega) (by omega) h4 h5 h6' (by omega)

theorem partitionByD2_spec {α : Type} [Inhabited α] (key : α → ℚ)
    (l : List α) (left right pivotIndex : Nat)
    (hlr : left ≤ right) (hp1 : left ≤ pivotIndex) (hp2 : pivotIndex ≤ right)
    (hlen : right < l.length) :
    (partitionByD2 key l left right pivotIndex).1.length = l.length ∧
    List.Perm (partitionByD2 key l left right pivotIndex).1 l ∧
    (∀ m, m < left ∨ right < m →
      (partitionByD2 key l left right pivotIndex).1.getD m default
        = l.getD m default) ∧
    left ≤ (partitionByD2 key l left right pivotIndex).2 ∧
    (partitionByD2 key l left right pivotIndex).2 ≤ right ∧
    (∀ m, left ≤ m → m < (partitionByD2 key l left right pivotIndex).2 →
      key ((partitionByD2 key l left right pivotIndex).1.getD m default)
        < key ((partitionByD2 key l left right pivotIndex).1.getD
            (partitionByD2 key l left right pivotIndex).2 default)) ∧
    (∀ m, (partitionByD2 key l left right pivotIndex).2 < m → m ≤ right →
      ¬ key ((partitionByD2 key l left right pivotIndex).1.getD m default)
        < key ((partitionByD2 key l left right pivotIndex).1.getD
            (partitionByD2 key l left right pivotIndex).2 default)) := by
  have hpl : pivotIndex < l.length := by omega
  have hrl : right < l.length := hlen
  set pv := key (l.getD pivotIndex default) with hpv
  set l1 := swap l pivotIndex right with hl1
  have hlen1 : l1.length = l.length := swap_length l pivotIndex right
  obtain ⟨g1, g2, g3, g4, g5⟩ := partGo_spec key pv right left (right - left)
    l1 left left (le_refl _) (le_refl _) hlr (by omega)
    (fun m hm1 hm2 => by omega) (fun m hm1 hm2 => by omega) (le_refl _)
  obtain ⟨b1, b2⟩ := partGo_store_bounds key pv right (right - left) l1 left
    left (le_refl _) hlr
  set pr := partGo key pv right (right - left) l1 left left with hpr
  have hsl : pr.2 < pr.1.length := by omega
  have hrl2 : right < pr.1.length := by omega
  have hright_keeps : pr.1.getD right default = l.getD pivotIndex default := by
    rw [g3 right (Or.inr (le_refl _)), hl1, swap_getD_right l pivotIndex right hrl]
  have hres : partitionByD2 key l left right pivotIndex
      = (swap pr.1 right pr.2, pr.2) := by
    rw [partitionByD2]
  rw [hres]
  have hpivslot : (swap pr.1 right pr.2).getD pr.2 default
      = l.getD pivotIndex default := by
    rw [swap_getD_right pr.1 right pr.2 hsl, hright_keeps]
  constructor
  · rw [swap_length, g1, hlen1]
  constructor
  · exact ((swap_perm pr.1 right pr.2 hrl2 hsl).trans g2).trans
      (swap_perm l pivotIndex right hpl hrl)
  constructor
  · intro m hm
    have hm1 : m ≠ right := by omega
    have hm2 : m ≠ pr.2 := by omega
    rw [swap_getD_other pr.1 right pr.2 m hm1 hm2,
      g3 m (by omega), hl1,
      swap_getD_other l pivotIndex right m (by omega) hm1]
  refine ⟨b1, b2, ?_, ?_⟩
  · intro m hm1 hm2
    rw [hpivslot,
      swap_getD_other pr.1 right pr.2 m (by omega) (by omega)]
    exact g4 m hm1 hm2
  · intro m hm1 hm2
    rw [hpivslot]
    by_cases hmr : m = right
    · subst hmr
      have hsr : pr.2 ≠ m := by omega
      rw [swap_getD_left pr.1 m pr.2 hrl2, if_neg (fun h => hsr h.symm)]
      exact g5 pr.2 (le_refl _) (by omega)
    · rw [swap_getD_other pr.1 right pr.2 m hmr (by omega)]
      exact g5 m (by omega) (by omega)

theorem take_eq_of_getD_eq {α : Type} [Inhabited α] (l2 l : List α) (n : Nat)
    (hlen : l2.length = l.length)
    (h : ∀ m, m < n → l2.getD m default = l.getD m default) :
    l2.take n = l.take n := by
  apply List.ext_getElem (by simp [hlen])
  intro i h1 h2
  simp only [List.length_take] at h1
  have hi : i < n := by omega
  have hil2 : i < l2.length := by omega
  have hil : i < l.length := by omega
  rw [List.getElem_take, List.getElem_take]
  have := h i hi
  rwa [List.getD_eq_getElem _ _ hil2, List.getD_eq_getElem _ _ hil] at this

theorem drop_eq_of_getD_eq {α : Type} [Inhabited α] (l2 l : List α) (n : Nat)
    (hlen : l2.length = l.length)
    (h : ∀ m, n ≤ m → l2.getD m default = l.getD m default) :
    l2.drop n = l.drop n := by
  apply List.ext_getElem (by simp [hlen])
  intro i h1 h2
  simp only [List.length_take, List.length_drop] at h1
  have hil2 : n + i < l2.length := by omega
  have hil : n + i < l.length := by omega
  rw [List.getElem_drop, List.getElem_drop]
  have := h (n + i) (by omega)
  rwa [List.getD_eq_getElem _ _ hil2, List.getD_eq_getElem _ _ hil] at this

theorem sep_exists_transfer {α : Type} [Inhabited α] (l2 l : List α)
    (left right : Nat) (hlen : l2.length = l.length)
    (hperm : List.Perm l2 l)
    (hunt : ∀ m, m < left ∨ right < m → l2.getD m default = l.getD m default)
    (hright : right < l.length) :
    ∀ b, left ≤ b → b ≤ right → ∃ b0, left ≤ b0 ∧ b0 ≤ right ∧
      l2.getD b default = l.getD b0 default := by
  intro b hb1 hb2
  have hlr : left ≤ right := le_trans hb1 hb2
  have hpre : l2.take left = l.take left :=
    take_eq_of_getD_eq l2 l left hlen (fun m hm => hunt m (Or.inl hm))
  have hsuf : l2.drop (right + 1) = l.drop (right + 1) :=
    drop_eq_of_getD_eq l2 l (right + 1) hlen (fun m hm => hunt m (Or.inr (by omega)))
  have hdperm : List.Perm (l2.drop left) (l.drop left) := by
    have e3 : l.take left ++ l2.drop left = l2 := by
      rw [← hpre]
      exact List.take_append_drop left l2
    have e4 : l.take left ++ l.drop left = l := List.take_append_drop left l
    have h1 : List.Perm (l.take left ++ l2.drop left) (l.take left ++ l.drop left) := by
      rw [e3, e4]
      exact hperm
    exact (List.perm_append_left_iff (l.take left)).mp h1
  have e2 : (l2.drop left).drop (right + 1 - left) = l2.drop (right + 1) := by
    rw [List.drop_drop]
    congr 1
    omega
  have e1 : (l.drop left).drop (right + 1 - left) = l.drop (right + 1) := by
    rw [List.drop_drop]
    congr 1
    omega
  have hmid : List.Perm ((l2.drop left).take (right + 1 - left))
      ((l.drop left).take (right + 1 - left)) := by
    have f2 : (l2.drop left).take (right + 1 - left) ++ l.drop (right + 1)
        = l2.drop left := by
      rw [← hsuf, ← e2]
      exact List.take_append_drop _ _
    have f1 : (l.drop left).take (right + 1 - left) ++ l.drop (right + 1)
        = l.drop left := by
      rw [← e1]
      exact List.take_append_drop _ _
    have h2 : List.Perm
        ((l2.drop left).take (right + 1 - left) ++ l.drop (right + 1))
        ((l.drop left).take (right + 1 - left) ++ l.drop (right + 1)) := by
      rw [f2, f1]
      exact hdperm
    exact (List.perm_append_right_iff (l.drop (right + 1))).mp h2
  have hbl2 : b < l2.length := by omega
  have hb_take : l2.getD b default
      = ((l2.drop left).take (right + 1 - left)).getD (b - left) default := by
    rw [List.getD_eq_getElem _ _ hbl2,
      List.getD_eq_getElem _ _ (by
        simp only [List.length_take, List.length_drop]
        omega)]
    rw [List.getElem_take, List.getElem_drop]
    congr 1
    omega
  have hmem : ((l2.drop left).take (right + 1 - left)).getD (b - left) default
      ∈ (l.drop left).take (right + 1 - left) := by
    apply hmid.mem_iff.mp
    rw [List.getD_eq_getElem _ _ (by
      simp only [List.length_take, List.length_drop]
      omega)]
    exact List.getElem_mem _
  obtain ⟨j0, hj0, hj0eq⟩ := List.mem_iff_getElem.mp hmem
  simp only [List.length_take, List.length_drop] at hj0
  refine ⟨left + j0, by omega, by omega, ?_⟩
  rw [hb_take, ← hj0eq, List.getD_eq_getElem _ _ (by omega)]
  rw [List.getElem_take, List.getElem_drop]

theorem lowSep_transfer {α : Type} [Inhabited α] (key : α → ℚ)
    (l2 l : List α) (left right : Nat)
    (hlen : l2.length = l.length) (hperm : List.Perm l2 l)
    (hunt : ∀ m, m < left ∨ right < m → l2.getD m default = l.getD m default)
    (hright : right < l.length)
    (hlow : ∀ a b, a < left → left ≤ b → b < l.length →
      key (l.getD a default) ≤ key (l.getD b default)) :
    ∀ a b, a < left → left ≤ b → b < l2.length →
      key (l2.getD a default) ≤ key (l2.getD b default) := by
  intro a b ha hb hbl
  have hA : l2.getD a default = l.getD a default := hunt a (Or.inl ha)
  by_cases hbr : b ≤ right
  · obtain ⟨b0, hb01, hb02, hb0eq⟩ :=
      sep_exists_transfer l2 l left right hlen hperm hunt hright b hb hbr
    rw [hA, hb0eq]
    exact hlow a b0 ha hb01 (by omega)
  · rw [hA, hunt b (Or.inr (by omega))]
    exact hlow a b ha hb (by omega)

theorem highSep_transfer {α : Type} [Inhabited α] (key : α → ℚ)
    (l2 l : List α) (left right : Nat)
    (hlen : l2.length = l.length) (hperm : List.Perm l2 l)
    (hunt : ∀ m, m < left ∨ right < m → l2.getD m default = l.getD m default)
    (hright : right < l.length)
    (hhigh : ∀ a b, a ≤ right → right < b → b < l.length →
      key (l.getD a default) ≤ key (l.getD b default)) :
    ∀ a b, a ≤ right → right < b → b < l2.length →
      key (l2.getD a default) ≤ key (l2.getD b default) := by
  intro a b ha hb hbl
  have hB : l2.getD b default = l.getD b default := hunt b (Or.inr hb)
  by_cases hal : a < left
  · rw [hunt a (Or.inl hal), hB]
    exact hhigh a b ha hb (by omega)
  · obtain ⟨a0, ha01, ha02, ha0eq⟩ :=
      sep_exists_transfer l2 l left right hlen hperm hunt hright a (by omega) ha
    rw [ha0eq, hB]
    exact hhigh a0 b ha02 hb (by omega)

theorem selectLoopF_spec {α : Type} [Inhabited α] (key : α → ℚ) (k : Nat) :
    ∀ (fuel : Nat) (l l' : List α) (left right : Nat),
      right < l.length →
      selectLoopF key fuel l k left right = some l' →
      (l'.length = l.length ∧ List.Perm l' l ∧
        (∀ m, m < left ∨ right < m → l'.getD m default = l.getD m default)) ∧
      (1 ≤ k → left ≤ k - 1 → k - 1 ≤ right →
        (∀ a b, a < left → left ≤ b → b < l.length →
          key (l.getD a default) ≤ key (l.getD b default)) →
        (∀ a b, a ≤ right → right < b → b < l.length →
          key (l.getD a default) ≤ key (l.getD b default)) →
        ∀ a b, a < k → k ≤ b → b < l.length →
          key (l'.getD a default) ≤ key (l'.getD b default)) := by
  intro fuel
  induction fuel with
  | zero =>
    intro l l' left right hright hsome
    simp [selectLoopF] at hsome
  | succ fuel ih =>
    intro l l' left right hright hsome
    rw [selectLoopF] at hsome
    by_cases hlr : right ≤ left
    · rw [if_pos hlr, Option.some_inj] at hsome
      subst hsome
      refine ⟨⟨rfl, List.Perm.refl l, fun m _ => rfl⟩, ?_⟩
      intro hk hk1 hk2 hlow hhigh a b ha hb hbl
      by_cases hal : a < left
      · exact hlow a b hal (by omega) hbl
      · exact hhigh a b (by omega) (by omega) hbl
    · rw [if_neg hlr] at hsome
      have hlr' : left ≤ right := by omega
      obtain ⟨p1, p2, p3, p4, p5, p6, p7⟩ :=
        partitionByD2_spec key l left right ((left + right) / 2) hlr'
          (by omega) (by omega) hright
      set pr := partitionByD2 key l left right ((left + right) / 2) with hprdef
      by_cases h1 : (k : Int) - 1 = (pr.2 : Int)
      · rw [if_pos h1, Option.some_inj] at hsome
        subst hsome
        refine ⟨⟨p1, p2, p3⟩, ?_⟩
        intro hk hk1 hk2 hlow hhigh
        have hlow2 := lowSep_transfer key pr.1 l left right p1 p2 p3 hright hlow
        have hhigh2 := highSep_transfer key pr.1 l left right p1 p2 p3 hright hhigh
        have hkp : k - 1 = pr.2 := by omega
        intro a b ha hb hbl
        have hbl2 : b < pr.1.length := by omega
        by_cases hal : a < left
        · exact hlow2 a b hal (by omega) hbl2
        · have ha3 : a ≤ pr.2 := by omega
          have hb2 : pr.2 < b := by omega
          have hpb : key (pr.1.getD pr.2 default) ≤ key (pr.1.getD b default) := by
            by_cases hbr : b ≤ right
            · exact not_lt.mp (p7 b hb2 hbr)
            · exact hhigh2 pr.2 b p5 (by omega) hbl2
          rcases lt_or_eq_of_le ha3 with ha4 | ha4
          · exact le_trans (le_of_lt (p6 a (by omega) ha4)) hpb
          · rw [ha4]
            exact hpb
      · rw [if_neg h1] at hsome
        by_cases h2 : (k : Int) - 1 < (pr.2 : Int)
        · rw [if_pos h2] at hsome
          have hright2 : pr.2 - 1 < pr.1.length := by omega
          obtain ⟨⟨s1, s2, s3⟩, skey⟩ := ih pr.1 l' left (pr.2 - 1) hright2 hsome
          refine ⟨⟨s1.trans p1, s2.trans p2, ?_⟩, ?_⟩
          · intro m hm
            rw [s3 m (by omega), p3 m hm]
          · intro hk hk1 hk2 hlow hhigh
            have hlow2 := lowSep_transfer key pr.1 l left right p1 p2 p3 hright hlow
            have hhigh2 := highSep_transfer key pr.1 l left right p1 p2 p3 hright hhigh
            have hkp : k - 1 < pr.2 := by omega
            have hhigh3 : ∀ a b, a ≤ pr.2 - 1 → pr.2 - 1 < b → b < pr.1.length →
                key (pr.1.getD a default) ≤ key (pr.1.getD b default) := by
              intro a b ha hb hbl
              by_cases hbr : b ≤ right
              · have hb2 : pr.2 ≤ b := by omega
                by_cases hal : a < left
                · exact hlow2 a b hal (by omega) hbl
                · have ha2 : a < pr.2 := by omega
                  have hstep : key (pr.1.getD a default)
                      < key (pr.1.getD pr.2 default) := p6 a (by omega) ha2
                  rcases eq_or_lt_of_le hb2 with hb3 | hb3
                  · rw [← hb3]
                    exact le_of_lt hstep
                  · exact le_trans (le_of_lt hstep) (not_lt.mp (p7 b hb3 hbr))
              · exact hhigh2 a b (by omega) (by omega) hbl
            have hfin := skey hk hk1 (by omega) hlow2 hhigh3
            intro a b ha hb hbl
            exact hfin a b ha hb (by omega)
        · rw [if_neg h2] at hsome
          have hright2 : right < pr.1.length := by omega
          obtain ⟨⟨s1, s2, s3⟩, skey⟩ := ih pr.1 l' (pr.2 + 1) right hright2 hsome
          refine ⟨⟨s1.trans p1, s2.trans p2, ?_⟩, ?_⟩
          · intro m hm
            rw [s3 m (by omega), p3 m hm]
          · intro hk hk1 hk2 hlow hhigh
            have hlow2 := lowSep_transfer key pr.1 l left right p1 p2 p3 hright hlow
            have hhigh2 := highSep_transfer key pr.1 l left right p1 p2 p3 hright hhigh
            have hkp : pr.2 < k - 1 := by omega
            have hlow3 : ∀ a b, a < pr.2 + 1 → pr.2 + 1 ≤ b → b < pr.1.length →
                key (pr.1.getD a default) ≤ key (pr.1.getD b default) := by
              intro a b ha hb hbl
              by_cases hal : a < left
              · exact hlow2 a b hal (by omega) hbl
              · have ha2 : a ≤ pr.2 := by omega
                by_cases hbr : b ≤ right
                · have hpb : key (pr.1.getD pr.2 default)
                      ≤ key (pr.1.getD b default) := not_lt.mp (p7 b (by omega) hbr)
                  rcases lt_or_eq_of_le ha2 with ha3 | ha3
                  · exact le_trans (le_of_lt (p6 a (by omega) ha3)) hpb
                  · rw [ha3]
                    exact hpb
                · exact hhigh2 a b (by omega) (by omega) hbl
            have hfin := skey hk (by omega) hk2 hlow3 hhigh2
            intro a b ha hb hbl
            exact hfin a b ha hb (by omega)

/-- Claim C2: for every candidate list of `N` probes and every `K` with
`0 ≤ K ≤ N`, after `selectKClosestInPlace (arr, K, wp)` the result is a
permutation of `arr` whose first `K` elements are exactly the `K` probes
with smallest wrapped squared distance to `wp`: every probe among the first
`K` is at most as far (by `d2ToPoint wp`) as every probe among the remaining
`N - K`, in arbitrary internal order — the multiset characterisation of
agreeing with the first `K` elements of a full sort by that distance (under
distance ties the selected multiset of distances is the sorted prefix, the
only sort-independent reading). -/
theorem selectKClosestInPlace_spec (arr : List Probe) (k : Nat) (wp : ℚ × ℚ)
    (hk : k ≤ arr.length) :
    List.Perm (selectKClosestInPlace arr k wp) arr ∧
    (selectKClosestInPlace arr k wp).length = arr.length ∧
    (∀ a b, a < k → k ≤ b → b < arr.length →
      d2ToPoint wp ((selectKClosestInPlace arr k wp).getD a default)
        ≤ d2ToPoint wp ((selectKClosestInPlace arr k wp).getD b default)) := by
  by_cases harr : arr = []
  · subst harr
    refine ⟨by rw [show selectKClosestInPlace [] k wp = [] from rfl], by rw [show selectKClosestInPlace [] k wp = [] from rfl], ?_⟩
    intro a b ha hb hbl
    simp at hbl
  · have hpos : 1 ≤ arr.length := List.length_pos.mpr harr
    obtain ⟨l', hsome⟩ := Option.isSome_iff_exists.mp
      (selectLoopF_isSome (d2ToPoint wp) (arr.length + 1) arr k 0
        (arr.length - 1) (by omega))
    have hres : selectKClosestInPlace arr k wp = l' := by
      rw [selectKClosestInPlace, hsome]
      rfl
    obtain ⟨⟨s1, s2, s3⟩, skey⟩ := selectLoopF_spec (d2ToPoint wp) k
      (arr.length + 1) arr l' 0 (arr.length - 1) (by omega) hsome
    rw [hres]
    refine ⟨s2, s1, ?_⟩
    by_cases hk0 : k = 0
    · intro a b ha hb hbl
      omega
    · exact skey (by omega) (by omega) (by omega)
        (fun a b ha _ _ => absurd ha (by omega))
        (fun a b _ hb hbl => absurd hbl (by omega))

theorem selectKClosestInPlace_spec_witness :
    2 ≤ [sampleProbe 1 100 0 0, sampleProbe 2 5 0 0,
          sampleProbe 3 50 0 0].length ∧
    List.Perm
      (selectKClosestInPlace
        [sampleProbe 1 100 0 0, sampleProbe 2 5 0 0, sampleProbe 3 50 0 0] 2
        (0, 0))
      [sampleProbe 1 100 0 0, sampleProbe 2 5 0 0, sampleProbe 3 50 0 0] ∧
    d2ToPoint (0, 0)
        ((selectKClosestInPlace
          [sampleProbe 1 100 0 0, sampleProbe 2 5 0 0, sampleProbe 3 50 0 0] 2
          (0, 0)).getD 0 default)
      ≤ d2ToPoint (0, 0)
          ((selectKClosestInPlace
            [sampleProbe 1 100 0 0, sampleProbe 2 5 0 0, sampleProbe 3 50 0 0] 2
            (0, 0)).getD 2 default) := by
  have h := selectKClosestInPlace_spec
    [sampleProbe 1 100 0 0, sampleProbe 2 5 0 0, sampleProbe 3 50 0 0] 2 (0, 0)
    (by norm_num)
  exact ⟨by norm_num, h.1, h.2.2 0 2 (by norm_num) (by norm_num) (by norm_num)⟩

/-- Claim C10: `selectKClosestInPlace` terminates for every finite input
list and every `k`: `partitionByD2` always returns a pivot index inside
`[left, right]`, so each iteration of the source's unbounded `while (true)`
loop strictly shrinks the search interval; consequently the loop, run with
fuel `arr.length + 1` (an upper bound on the iteration count), always
returns instead of exhausting its fuel. -/
theorem selectKClosestInPlace_terminates :
    (∀ (l : List Probe) (wp : ℚ × ℚ) (left right pivotIndex : Nat),
      left ≤ right →
      left ≤ (partitionByD2 (d2ToPoint wp) l left right pivotIndex).2 ∧
      (partitionByD2 (d2ToPoint wp) l left right pivotIndex).2 ≤ right) ∧
    (∀ (l : List Probe) (k : Nat) (wp : ℚ × ℚ),
      (selectLoopF (d2ToPoint wp) (l.length + 1) l k 0
        (l.length - 1)).isSome = true) := by
  constructor
  · intro l wp left right pivotIndex h
    exact partitionByD2_pivot_bounds (d2ToPoint wp) l left right pivotIndex h
  · intro l k wp
    exact selectLoopF_isSome (d2ToPoint wp) (l.length + 1) l k 0
      (l.length - 1) (by omega)

theorem selectKClosestInPlace_terminates_witness :
    (0 : Nat) ≤ 1 ∧
    (0 ≤ (partitionByD2 (d2ToPoint (0, 0))
          [sampleProbe 1 5 0 0, sampleProbe 2 3 0 0] 0 1 0).2 ∧
      (partitionByD2 (d2ToPoint (0, 0))
          [sampleProbe 1 5 0 0, sampleProbe 2 3 0 0] 0 1 0).2 ≤ 1) :=
  ⟨by norm_num,
    selectKClosestInPlace_terminates.1
      [sampleProbe 1 5 0 0, sampleProbe 2 3 0 0] (0, 0) 0 1 0 (by norm_num)⟩

/-! ## Resource conservation: C1 -/

theorem map_amt_set_preserve (l : List GRes) (i : Nat) (r : GRes)
    (h : r.amt = (l.getD i default).amt) :
    (l.set i r).map (fun r => r.amt) = l.map (fun r => r.amt) := by
  rcases lt_or_le i l.length with hi | hi
  · rw [List.map_set]
    have h2 : r.amt = (l.map (fun r => r.amt)).getD i 0 := by
      rw [h, List.getD_eq_getElem _ _ hi,
        List.getD_eq_getElem _ _ (by simpa using hi), List.getElem_map]
    rw [h2, set_getD_self]
  · rw [List.set_eq_of_length_le hi]

theorem amts_getD (st : SimState) (i : Nat) (hi : i < st.resources.length) :
    (amts st).getD i 0 = (st.resources.getD i default).amt := by
  unfold amts
  rw [List.getD_eq_getElem _ _ (by simpa using hi),
    List.getD_eq_getElem _ _ hi, List.getElem_map]

theorem amts_length (st : SimState) : (amts st).length = st.resources.length := by
  simp [amts]

theorem gridRemoveResource_amts (st : SimState) (idx : Nat) :
    amts (gridRemoveResource st idx) = amts st ∧
    (gridRemoveResource st idx).systemRemainingTotal
      = st.systemRemainingTotal ∧
    (gridRemoveResource st idx).systemInitialTotal
      = st.systemInitialTotal := by
  simp only [gridRemoveResource]
  split_ifs with h
  · exact ⟨rfl, rfl, rfl⟩
  · refine ⟨?_, rfl, rfl⟩
    exact (map_amt_set_preserve _ idx _ (by rfl)).trans
      (map_amt_set_preserve _ _ _ (by rfl))

theorem deactivateResource_amts (st : SimState) (idx : Nat) :
    amts (deactivateResource st idx) = amts st ∧
    (deactivateResource st idx).systemRemainingTotal
      = st.systemRemainingTotal ∧
    (deactivateResource st idx).systemInitialTotal
      = st.systemInitialTotal := by
  simp only [deactivateResource]
  split_ifs with h
  · exact ⟨rfl, rfl, rfl⟩
  · obtain ⟨g1, g2, g3⟩ := gridRemoveResource_amts st idx
    refine ⟨?_, g2, g3⟩
    exact ((map_amt_set_preserve _ idx _ (by rfl)).trans
      (map_amt_set_preserve _ _ _ (by rfl))).trans g1

theorem activateResource_amts (st : SimState) (idx : Nat) :
    amts (activateResource st idx) = amts st ∧
    (activateResource st idx).systemRemainingTotal
      = st.systemRemainingTotal ∧
    (activateResource st idx).systemInitialTotal
      = st.systemInitialTotal := by
  simp only [activateResource, gridAddResource]
  refine ⟨?_, ?_, ?_⟩
  · exact (map_amt_set_preserve _ idx _ (by rfl)).trans
      (map_amt_set_preserve _ idx _ (by rfl))
  · trivial
  · trivial


theorem harvest_step_no_trunc (st : SimState) (ridx : Nat) (tk : ℚ)
    (h : harvestInv st) (hridx : ridx < st.resources.length)
    (htk0 : 0 ≤ tk) (htk1 : tk ≤ (st.resources.getD ridx default).amt)
    (hbig : ¬ (st.resources.getD ridx default).amt ≤ 1 / 1000)
    (hamt2 : ¬ (st.resources.getD ridx default).amt - tk ≤ 1 / 1000) :
    harvestInv { st with
      resources := st.resources.set ridx
        { st.resources.getD ridx default with
            amt := (st.resources.getD ridx default).amt - tk },
      systemRemainingTotal := max 0 (st.systemRemainingTotal - tk) } := by
  obtain ⟨hall, hlo, hhi⟩ := h
  push_neg at hamt2 hbig
  have hlen : ridx < (amts st).length := by
    rw [amts_length]
    exact hridx
  have hamtr : (amts st).getD ridx 0 = (st.resources.getD ridx default).amt :=
    amts_getD st ridx hridx
  have hnonneg : ∀ a ∈ amts st, 0 ≤ a := by
    intro a ha
    rcases hall a ha with h0 | h0
    · rw [h0]
    · linarith
  have hamt_mem : (st.resources.getD ridx default).amt ∈ amts st := by
    rw [← hamtr, List.getD_eq_getElem _ _ hlen]
    exact List.getElem_mem _
  have hsum_ge : (st.resources.getD ridx default).amt ≤ (amts st).sum :=
    List.single_le_sum hnonneg _ hamt_mem
  rw [sumAmt] at hlo hhi
  have hmax : max 0 (st.systemRemainingTotal - tk)
      = st.systemRemainingTotal - tk := by
    apply max_eq_right
    linarith
  have hamts : amts { st with
      resources := st.resources.set ridx
        { st.resources.getD ridx default with
            amt := (st.resources.getD ridx default).amt - tk },
      systemRemainingTotal := max 0 (st.systemRemainingTotal - tk) }
      = (amts st).set ridx ((st.resources.getD ridx default).amt - tk) := by
    show (st.resources.set ridx _).map (fun r => r.amt) = _
    rw [List.map_set]
    rfl
  refine ⟨?_, ?_, ?_⟩
  · intro a ha
    rw [hamts] at ha
    rcases List.mem_or_eq_of_mem_set ha with h1 | h1
    · exact hall a h1
    · right
      rw [h1]
      linarith
  · rw [sumAmt, hamts, sum_set _ _ _ hlen, hamtr]
    show 0 ≤ max 0 (st.systemRemainingTotal - tk) - _
    rw [hmax]
    linarith
  · rw [sumAmt, hamts, sum_set _ _ _ hlen, hamtr,
      countP_set_of_false _ _ _ _ hlen
        (decide_eq_false (by intro hc; rw [hc] at hamt2; linarith))
        (by rw [hamtr]
            exact decide_eq_false (by intro hc; rw [hc] at hbig; linarith))]
    show max 0 (st.systemRemainingTotal - tk) - _ ≤ _
    rw [hmax]
    linarith

theorem harvest_step_trunc (st : SimState) (ridx : Nat) (tk : ℚ)
    (h : harvestInv st) (hridx : ridx < st.resources.length)
    (htk0 : 0 ≤ tk) (htk1 : tk ≤ (st.resources.getD ridx default).amt)
    (hbig : ¬ (st.resources.getD ridx default).amt ≤ 1 / 1000)
    (hamt2 : (st.resources.getD ridx default).amt - tk ≤ 1 / 1000) :
    harvestInv (deactivateResource { st with
      resources := st.resources.set ridx
        { st.resources.getD ridx default with amt := 0 },
      systemRemainingTotal := max 0 (st.systemRemainingTotal - tk) } ridx) := by
  obtain ⟨hall, hlo, hhi⟩ := h
  push_neg at hbig
  have hlen : ridx < (amts st).length := by
    rw [amts_length]
    exact hridx
  have hamtr : (amts st).getD ridx 0 = (st.resources.getD ridx default).amt :=
    amts_getD st ridx hridx
  have hnonneg : ∀ a ∈ amts st, 0 ≤ a := by
    intro a ha
    rcases hall a ha with h0 | h0
    · rw [h0]
    · linarith
  have hamt_mem : (st.resources.getD ridx default).amt ∈ amts st := by
    rw [← hamtr, List.getD_eq_getElem _ _ hlen]
    exact List.getElem_mem _
  have hsum_ge : (st.resources.getD ridx default).amt ≤ (amts st).sum :=
    List.single_le_sum hnonneg _ hamt_mem
  rw [sumAmt] at hlo hhi
  have hmax : max 0 (st.systemRemainingTotal - tk)
      = st.systemRemainingTotal - tk := by
    apply max_eq_right
    linarith
  obtain ⟨d1, d2, d3⟩ := deactivateResource_amts { st with
      resources := st.resources.set ridx
        { st.resources.getD ridx default with amt := 0 },
      systemRemainingTotal := max 0 (st.systemRemainingTotal - tk) } ridx
  have hamts : amts { st with
      resources := st.resources.set ridx
        { st.resources.getD ridx default with amt := 0 },
      systemRemainingTotal := max 0 (st.systemRemainingTotal - tk) }
      = (amts st).set ridx 0 := by
    show (st.resources.set ridx _).map (fun r => r.amt) = _
    rw [List.map_set]
    rfl
  refine ⟨?_, ?_, ?_⟩
  · intro a ha
    rw [d1, hamts] at ha
    rcases List.mem_or_eq_of_mem_set ha with h1 | h1
    · exact hall a h1
    · left
      exact h1
  · rw [sumAmt, d1, hamts, sum_set _ _ _ hlen, hamtr, d2]
    show 0 ≤ max 0 (st.systemRemainingTotal - tk) - _
    rw [hmax]
    linarith
  · rw [sumAmt, d1, hamts, sum_set _ _ _ hlen, hamtr,
      countP_set_of_true _ _ _ _ hlen (by norm_num)
        (by rw [hamtr]
            exact decide_eq_false (by intro hc; rw [hc] at hbig; linarith)),
      d2]
    show max 0 (st.systemRemainingTotal - tk) - _ ≤ _
    rw [hmax]
    push_cast
    linarith

theorem harvestFrom_preserves_inv (st : SimState) (ridx : Nat) (rate dt : ℚ)
    (hrate : 0 ≤ rate) (hdt : 0 ≤ dt) (h : harvestInv st) :
    harvestInv (harvestFrom st ridx rate dt) := by
  simp only [harvestFrom]
  split_ifs with hguard htrunc
  · exact h
  · have hridx : ridx < st.resources.length := by
      by_contra hout
      push_neg at hout
      apply hguard
      rw [getD_of_length_le _ _ _ hout]
      norm_num [show (default : GRes).amt = 0 from rfl]
    have hpos : (0 : ℚ) < (st.resources.getD ridx default).amt := by
      push_neg at hguard
      linarith
    exact harvest_step_trunc st ridx
      (min (st.resources.getD ridx default).amt (rate * dt)) h hridx
      (le_min hpos.le (mul_nonneg hrate hdt)) (min_le_left _ _) hguard htrunc
  · have hridx : ridx < st.resources.length := by
      by_contra hout
      push_neg at hout
      apply hguard
      rw [getD_of_length_le _ _ _ hout]
      norm_num [show (default : GRes).amt = 0 from rfl]
    have hpos : (0 : ℚ) < (st.resources.getD ridx default).amt := by
      push_neg at hguard
      linarith
    exact harvest_step_no_trunc st ridx
      (min (st.resources.getD ridx default).amt (rate * dt)) h hridx
      (le_min hpos.le (mul_nonneg hrate hdt)) (min_le_left _ _) hguard htrunc

theorem runHarvests_preserves_inv (ops : List HarvestOp) :
    ∀ st, harvestInv st → (∀ o ∈ ops, 0 ≤ o.rate ∧ 0 ≤ o.dt) →
      harvestInv (runHarvests st ops) := by
  induction ops with
  | nil =>
    intro st h _
    exact h
  | cons o rest ih =>
    intro st h hops
    rw [runHarvests, List.foldl_cons]
    exact ih (harvestFrom st o.ridx o.rate o.dt)
      (harvestFrom_preserves_inv st o.ridx o.rate o.dt
        (hops o (by simp)).1 (hops o (by simp)).2 h)
      (fun o' ho' => hops o' (by simp [ho']))

theorem spawnStep_amts (st : SimState) (sp : ℚ × ℚ × ℚ) :
    amts (spawnStep st sp) = amts st ++ [sp.2.2] ∧
    (spawnStep st sp).systemInitialTotal
      = st.systemInitialTotal + sp.2.2 := by
  obtain ⟨a1, a2, a3⟩ := activateResource_amts
    { st with resources := st.resources ++ [makeResource sp.1 sp.2.1 sp.2.2] }
    st.resources.length
  constructor
  · refine a1.trans ?_
    show (st.resources ++ [makeResource sp.1 sp.2.1 sp.2.2]).map
        (fun r => r.amt) = _
    rw [List.map_append]
    rfl
  · show (activateResource _ _).systemInitialTotal + _ = _
    rw [a3]
    rfl

theorem spawn_fold (specs : List (ℚ × ℚ × ℚ)) :
    ∀ st, amts (specs.foldl spawnStep st)
        = amts st ++ specs.map (fun sp => sp.2.2) ∧
      (specs.foldl spawnStep st).systemInitialTotal
        = st.systemInitialTotal + (specs.map (fun sp => sp.2.2)).sum := by
  induction specs with
  | nil =>
    intro st
    simp
  | cons sp rest ih =>
    intro st
    rw [List.foldl_cons]
    obtain ⟨s1, s2⟩ := spawnStep_amts st sp
    obtain ⟨r1, r2⟩ := ih (spawnStep st sp)
    constructor
    · rw [r1, s1, List.map_cons, List.append_assoc]
      rfl
    · rw [r2, s2, List.map_cons, List.sum_cons]
      ring

theorem spawnSystem_inv (specs : List (ℚ × ℚ × ℚ))
    (hspecs : ∀ sp ∈ specs, (1 / 1000 : ℚ) < sp.2.2) :
    amts (spawnSystem specs) = specs.map (fun sp => sp.2.2) ∧
    (spawnSystem specs).systemRemainingTotal = sumAmt (spawnSystem specs) ∧
    (spawnSystem specs).systemRemainingTotal
      = (spawnSystem specs).systemInitialTotal ∧
    harvestInv (spawnSystem specs) := by
  obtain ⟨f1, f2⟩ := spawn_fold specs emptySystem
  have hamts : amts (spawnSystem specs) = specs.map (fun sp => sp.2.2) := by
    show amts (specs.foldl spawnStep emptySystem) = _
    rw [f1]
    rfl
  have hinit : (spawnSystem specs).systemInitialTotal
      = (specs.map (fun sp => sp.2.2)).sum := by
    show (specs.foldl spawnStep emptySystem).systemInitialTotal = _
    rw [f2]
    show (0 : ℚ) + _ = _
    ring
  have hrem : (spawnSystem specs).systemRemainingTotal
      = (spawnSystem specs).systemInitialTotal := rfl
  have hsum : sumAmt (spawnSystem specs) = (specs.map (fun sp => sp.2.2)).sum := by
    rw [sumAmt, hamts]
  refine ⟨hamts, by rw [hrem, hinit, hsum], hrem, ?_, ?_, ?_⟩
  · intro a ha
    rw [hamts] at ha
    obtain ⟨sp, hsp, hspa⟩ := List.mem_map.mp ha
    right
    rw [← hspa]
    exact hspecs sp hsp
  · rw [hrem, hinit, hsum]
    simp
  · rw [hrem, hinit, hsum]
    simp only [sub_self]
    positivity

unseal Rat.sub Rat.add Rat.mul Rat.inv in
/-- Claim C1 counterexample: exact conservation fails.  Spawn a single
resource of capacity 20; harvest `19.9985` (leaving `amt = 0.0015`, above
the cutoff) and then `0.001` (leaving a residue `0.0005 ≤ 0.001`, which
`_harvestFrom` truncates to `amt = 0` while decrementing
`systemRemainingTotal` by only the harvested `0.001`).  Afterwards
`systemRemainingTotal = 0.0005` but the sum of all `amt` is `0`: the two
quantities differ by the discarded residue, a designed cutoff effect
computed here in exact arithmetic, not floating-point rounding. -/
theorem systemRemainingTotal_exact_cex :
    ¬ ((runHarvests (spawnSystem [(0, 0, 20)])
          [⟨0, 39997 / 2000, 1⟩, ⟨0, 1 / 1000, 1⟩]).systemRemainingTotal
        = sumAmt (runHarvests (spawnSystem [(0, 0, 20)])
          [⟨0, 39997 / 2000, 1⟩, ⟨0, 1 / 1000, 1⟩])) := by
  decide

/-- Claim C1 (amended): `spawnSystem` initialises `systemRemainingTotal` to
the exact sum of `amt` over all resources (equal to `systemInitialTotal`),
and across any sequence of `_harvestFrom` events the total is only
decremented incrementally, staying within the tolerance actually realised
by the code: it never drops below the exact pool sum, and exceeds it by at
most `0.001` per cutoff-zeroed resource (the `r.amt = 0` truncation of
sub-`0.001` residues being the only source of divergence — not mere
floating-point error, see the counterexample). -/
theorem systemRemainingTotal_conservation (specs : List (ℚ × ℚ × ℚ))
    (ops : List HarvestOp)
    (hspecs : ∀ sp ∈ specs, (1 / 1000 : ℚ) < sp.2.2)
    (hops : ∀ o ∈ ops, 0 ≤ o.rate ∧ 0 ≤ o.dt) :
    (spawnSystem specs).systemRemainingTotal = sumAmt (spawnSystem specs) ∧
    (spawnSystem specs).systemRemainingTotal
      = (spawnSystem specs).systemInitialTotal ∧
    0 ≤ (runHarvests (spawnSystem specs) ops).systemRemainingTotal
        - sumAmt (runHarvests (spawnSystem specs) ops) ∧
    (runHarvests (spawnSystem specs) ops).systemRemainingTotal
        - sumAmt (runHarvests (spawnSystem specs) ops)
      ≤ 1 / 1000 * ((amts (runHarvests (spawnSystem specs) ops)).countP
          (fun a => decide (a = 0)) : ℚ) := by
  obtain ⟨e1, e2, e3, hinv⟩ := spawnSystem_inv specs hspecs
  have hrun := runHarvests_preserves_inv ops (spawnSystem specs) hinv hops
  exact ⟨e2, e3, hrun.2.1, hrun.2.2⟩

unseal Rat.sub Rat.add Rat.mul Rat.inv in
theorem systemRemainingTotal_conservation_witness :
    ((∀ sp ∈ [((0 : ℚ), (0 : ℚ), (20 : ℚ))], (1 / 1000 : ℚ) < sp.2.2) ∧
      (∀ o ∈ [(⟨0, 2, 1⟩ : HarvestOp)], 0 ≤ o.rate ∧ 0 ≤ o.dt)) ∧
    ((spawnSystem [((0 : ℚ), (0 : ℚ), (20 : ℚ))]).systemRemainingTotal
        = sumAmt (spawnSystem [((0 : ℚ), (0 : ℚ), (20 : ℚ))]) ∧
      0 ≤ (runHarvests (spawnSystem [((0 : ℚ), (0 : ℚ), (20 : ℚ))])
            [⟨0, 2, 1⟩]).systemRemainingTotal
          - sumAmt (runHarvests (spawnSystem [((0 : ℚ), (0 : ℚ), (20 : ℚ))])
            [⟨0, 2, 1⟩])) := by
  have h := systemRemainingTotal_conservation [((0 : ℚ), (0 : ℚ), (20 : ℚ))]
    [⟨0, 2, 1⟩] (by decide) (by decide)
  exact ⟨⟨by decide, by decide⟩, h.1, h.2.2.1⟩

/-! ## Sacrifice accounting: C3 -/

theorem countSac_eq_countP (l : List Probe) :
    countSac l = l.countP (fun p => p.sacrificing && !p.dead) := by
  rw [countSac, List.countP_eq_length_filter]

theorem sacUpdate_isPlayer (dt : ℚ) (p : Probe) :
    (sacUpdate dt p).isPlayer = p.isPlayer := by
  simp only [sacUpdate]
  split_ifs <;> rfl

theorem sacUpdate_sacrificing (dt : ℚ) (p : Probe) :
    (sacUpdate dt p).sacrificing = p.sacrificing := by
  simp only [sacUpdate]
  split_ifs <;> rfl

theorem sacUpdate_count (dt : ℚ) (hdt : 0 < dt) (ps : List Probe)
    (hnd : ∀ p ∈ ps, p.dead = false) :
    countSac (ps.map (sacUpdate dt))
      + (ps.map (sacUpdate dt)).countP (fun p => p.dead) = countSac ps := by
  induction ps with
  | nil => rfl
  | cons p rest ih =>
    have hd : p.dead = false := hnd p (List.mem_cons_self p rest)
    have ihr := ih (fun q hq => hnd q (List.mem_cons_of_mem p hq))
    have hng : ¬ (p.dead = true ∨ dt ≤ 0) := by
      simp only [hd, not_or]
      exact ⟨Bool.false_ne_true, by linarith⟩
    simp only [countSac_eq_countP] at ihr ⊢
    simp only [List.map_cons, List.countP_cons]
    by_cases hs : p.sacrificing
    · by_cases ht : p.sacrificeT - dt ≤ 0
      · have hu : sacUpdate dt p
            = { p with sacrificeT := p.sacrificeT - dt, dead := true } := by
          simp only [sacUpdate]
          rw [if_neg hng, if_pos hs, if_pos ht]
        rw [hu]
        simp only [hs, hd]
        simp only [Bool.not_true, Bool.not_false, Bool.and_true, Bool.and_false]
        simp only [if_true, if_false, Bool.false_eq_true, Bool.true_eq_false]
        omega
      · have hu : sacUpdate dt p
            = { p with sacrificeT := p.sacrificeT - dt } := by
          simp only [sacUpdate]
          rw [if_neg hng, if_pos hs, if_neg ht]
        rw [hu]
        simp only [hs, hd]
        simp only [Bool.not_true, Bool.not_false, Bool.and_true, Bool.and_false]
        simp only [if_true, if_false, Bool.false_eq_true, Bool.true_eq_false]
        omega
    · have hu : sacUpdate dt p = p := by
        simp only [sacUpdate]
        rw [if_neg hng, if_neg hs]
      rw [hu]
      have hsf : p.sacrificing = false := Bool.not_eq_true _ |>.mp hs
      simp only [hsf, hd]
      simp only [Bool.not_true, Bool.not_false, Bool.and_true, Bool.and_false,
        Bool.false_and, Bool.true_and]
      simp only [if_true, if_false, Bool.false_eq_true, Bool.true_eq_false]
      omega

theorem countSac_filter_not_dead (l : List Probe) :
    countSac (l.filter (fun p => !p.dead)) = countSac l := by
  simp only [countSac_eq_countP]
  induction l with
  | nil => rfl
  | cons p rest ih =>
    rw [List.filter_cons, List.countP_cons]
    by_cases hd : p.dead = true
    · rw [if_neg (by simp [hd]), if_neg (by simp [hd]), ih]
      omega
    · rw [if_pos (by simp [hd]), List.countP_cons, ih]

theorem died_eq_countP (l : List Probe) :
    l.length - (l.filter (fun p => !p.dead)).length
      = l.countP (fun p => p.dead) := by
  induction l with
  | nil => rfl
  | cons p rest ih =>
    rw [List.filter_cons, List.countP_cons]
    have hle : (rest.filter (fun p => !p.dead)).length ≤ rest.length :=
      List.length_filter_le _ _
    by_cases hd : p.dead = true
    · rw [if_neg (by simp [hd]), if_pos (by simp [hd])]
      simp only [List.length_cons]
      omega
    · rw [if_pos (by simp [hd]), if_neg (by simp [hd])]
      simp only [List.length_cons]
      omega

theorem countSac_eq_zero (l : List Probe)
    (h : ∀ p ∈ l, p.sacrificing = false) : countSac l = 0 := by
  rw [countSac_eq_countP, List.countP_eq_zero]
  intro p hp
  simp [h p hp]

theorem masterUpdateSac_toSacrifice (dt : ℚ) (m : MasterRec) :
    (masterUpdateSac dt m).toSacrifice = m.toSacrifice := by
  simp only [masterUpdateSac, startCharge]
  split_ifs <;> rfl

theorem masterUpdateSac_sacrificed (dt : ℚ) (m : MasterRec) :
    (masterUpdateSac dt m).sacrificed = m.sacrificed := by
  simp only [masterUpdateSac, startCharge]
  split_ifs <;> rfl

theorem masterUpdateSac_state_build (dt : ℚ) (hdt : 0 < dt) (m : MasterRec)
    (hs : m.state = MState.BUILD) :
    (masterUpdateSac dt m).state =
      (if m.toSacrifice ≤ m.sacrificed then MState.CHARGE
        else MState.BUILD) := by
  simp only [masterUpdateSac, startCharge]
  rw [if_neg (by linarith : ¬ dt ≤ 0), if_neg (by simp [hs])]
  rw [if_pos (by simpa using hs)]
  split_ifs <;> simp [hs]

theorem masterUpdateSac_state_charge (dt : ℚ) (m : MasterRec)
    (hs : m.state = MState.CHARGE) :
    (masterUpdateSac dt m).state = MState.CHARGE := by
  simp only [masterUpdateSac, startCharge]
  split_ifs <;> simp_all

theorem buildTick_preserves (K : Nat) (dt : ℚ) (hdt : 0 < dt)
    (ps : List Probe) (m : MasterRec) (h : BInv K (ps, m)) :
    BInv K (buildTick dt (ps, m)) := by
  simp only [BInv] at h
  obtain ⟨hnd, hpl, htos, hcase⟩ := h
  simp only [buildTick, purgeSacrificed]
  set ps1 := ps.map (sacUpdate dt) with hps1
  set m1 := masterUpdateSac dt m with hm1
  set alive := ps1.filter (fun p => !p.dead) with halive
  set died := ps1.length - alive.length with hdied
  set m2 := if 0 < died then { m1 with sacrificed := m1.sacrificed + died }
    else m1 with hm2
  have hcount : countSac ps1 + ps1.countP (fun p => p.dead) = countSac ps :=
    sacUpdate_count dt hdt ps hnd
  have hdied2 : died = ps1.countP (fun p => p.dead) := by
    rw [hdied, halive, died_eq_countP]
  have hca : countSac alive = countSac ps1 := by
    rw [halive, countSac_filter_not_dead]
  have hstar : countSac alive + died = countSac ps := by omega
  have hm2s : m2.state = m1.state := by
    rw [hm2]; split_ifs <;> rfl
  have hm2sac : m2.sacrificed = m1.sacrificed + died := by
    rw [hm2]; split_ifs with hdp
    · rfl
    · omega
  have hm2t : m2.toSacrifice = m1.toSacrifice := by
    rw [hm2]; split_ifs <;> rfl
  have hm1sac : m1.sacrificed = m.sacrificed := masterUpdateSac_sacrificed dt m
  have hm1t : m1.toSacrifice = m.toSacrifice := masterUpdateSac_toSacrifice dt m
  simp only [BInv]
  refine ⟨?_, ?_, ?_, ?_⟩
  · intro p hp
    rw [halive] at hp
    simpa using (List.mem_filter.mp hp).2
  · intro p hp hppl
    rw [halive] at hp
    have hp1 : p ∈ ps1 := (List.mem_filter.mp hp).1
    rw [hps1] at hp1
    obtain ⟨q, hq, hfq⟩ := List.mem_map.mp hp1
    rw [← hfq, sacUpdate_sacrificing]
    rw [← hfq, sacUpdate_isPlayer] at hppl
    exact hpl q hq hppl
  · rw [hm2t, hm1t]; exact htos
  · rcases hcase with ⟨hst, hacc⟩ | ⟨hst, hsacr, hzero⟩
    · have hm1s : m1.state =
          (if m.toSacrifice ≤ m.sacrificed then MState.CHARGE
            else MState.BUILD) :=
        masterUpdateSac_state_build dt hdt m hst
      by_cases hks : m.toSacrifice ≤ m.sacrificed
      · right
        have hcz : countSac ps = 0 := by omega
        have hdz : died = 0 := by omega
        refine ⟨?_, ?_, ?_⟩
        · rw [hm2s, hm1s, if_pos hks]
        · rw [hm2sac, hm1sac]; omega
        · omega
      · left
        refine ⟨?_, ?_⟩
        · rw [hm2s, hm1s, if_neg hks]
        · rw [hm2sac, hm1sac]; omega
    · right
      have hcz : countSac ps = 0 := hzero
      have hdz : died = 0 := by omega
      refine ⟨?_, ?_, ?_⟩
      · rw [hm2s, masterUpdateSac_state_charge dt m hst]
      · rw [hm2sac, hm1sac]; omega
      · omega

theorem buildRun_preserves (K : Nat) (dt : ℚ) (hdt : 0 < dt)
    (s : List Probe × MasterRec) (h : BInv K s) (n : Nat) :
    BInv K (buildRun dt s n) := by
  induction n with
  | zero => exact h
  | succ n ih =>
    have hstep := buildTick_preserves K dt hdt (buildRun dt s n).1
      (buildRun dt s n).2 (by simpa using ih)
    rw [buildRun, Function.iterate_succ_apply']
    rw [buildRun] at hstep
    simpa using hstep

theorem selectKClosestInPlace_perm (arr : List Probe) (k : Nat)
    (wp : ℚ × ℚ) : List.Perm (selectKClosestInPlace arr k wp) arr := by
  by_cases harr : arr = []
  · subst harr
    rw [show selectKClosestInPlace [] k wp = [] from rfl]
  · have hpos : 1 ≤ arr.length := List.length_pos.mpr harr
    obtain ⟨l', hsome⟩ := Option.isSome_iff_exists.mp
      (selectLoopF_isSome (d2ToPoint wp) (arr.length + 1) arr k 0
        (arr.length - 1) (by omega))
    have hres : selectKClosestInPlace arr k wp = l' := by
      rw [selectKClosestInPlace, hsome]
      rfl
    obtain ⟨⟨_, s2, _⟩, _⟩ := selectLoopF_spec (d2ToPoint wp) k
      (arr.length + 1) arr l' 0 (arr.length - 1) (by omega) hsome
    rw [hres]
    exact s2

theorem countP_contains_of_nodup (L C : List Nat) (hL : L.Nodup)
    (hC : C.Nodup) (hsub : ∀ x ∈ C, x ∈ L) :
    L.countP (fun i => C.contains i) = C.length := by
  rw [List.countP_eq_length_filter]
  have hperm : List.Perm (L.filter (fun i => C.contains i)) C := by
    apply List.perm_of_nodup_nodup_toFinset_eq (List.Nodup.filter _ hL) hC
    ext x
    simp only [List.mem_toFinset, List.mem_filter, List.elem_iff]
    constructor
    · rintro ⟨_, h⟩
      exact h
    · intro h
      exact ⟨hsub x h, h⟩
  exact hperm.length_eq

theorem beginSacrifice_player (p : Probe) (wp : ℚ × ℚ) (t : ℚ)
    (hp : p.isPlayer = true) : beginSacrifice p wp t = p := by
  simp [beginSacrifice, hp]

theorem beginSacrifice_ai (p : Probe) (wp : ℚ × ℚ) (t : ℚ)
    (hp : p.isPlayer = false) :
    beginSacrifice p wp t
      = { p with sacrificing := true, sacrificeT := t,
                 waypoint := some wp, target := -1 } := by
  simp [beginSacrifice, hp]

theorem beginSacrifice_dead (p : Probe) (wp : ℚ × ℚ) (t : ℚ) :
    (beginSacrifice p wp t).dead = p.dead := by
  simp only [beginSacrifice]
  split_ifs <;> rfl

theorem beginSacrifice_isPlayer (p : Probe) (wp : ℚ × ℚ) (t : ℚ) :
    (beginSacrifice p wp t).isPlayer = p.isPlayer := by
  simp only [beginSacrifice]
  split_ifs <;> rfl

theorem startBuild_spec (probes : List Probe) (m : MasterRec) (wp : ℚ × ℚ)
    (timers : Nat → ℚ)
    (hnd : ∀ p ∈ probes, p.dead = false)
    (hns : ∀ p ∈ probes, p.sacrificing = false)
    (hid : (probes.map Probe.id).Nodup) :
    (startBuild probes m wp timers).2.state = MState.BUILD ∧
    (startBuild probes m wp timers).2.sacrificed = 0 ∧
    (startBuild probes m wp timers).2.toSacrifice
      = (⌊((probes.filter (fun p => !p.isPlayer && !p.dead)).length : ℚ)
          * (10 / 100)⌋).toNat ∧
    BInv (startBuild probes m wp timers).2.toSacrifice
      (startBuild probes m wp timers) := by
  simp only [startBuild, BInv]
  set ai := probes.filter (fun p => !p.isPlayer && !p.dead) with hai
  set toSac := (⌊(ai.length : ℚ) * (10 / 100)⌋).toNat with htoSac
  by_cases h0 : toSac ≤ 0
  · rw [if_pos h0]
    refine ⟨by trivial, by trivial, by trivial, ?_, ?_, by trivial,
      Or.inl ⟨by trivial, ?_⟩⟩
    · exact hnd
    · exact fun p hp _ => hns p hp
    · show (0 : Nat) + countSac probes = toSac
      have hz := countSac_eq_zero probes hns
      omega
  · rw [if_neg h0]
    set sel := selectKClosestInPlace ai toSac wp with hsel
    set chosen := (sel.take toSac).map (fun p => p.id) with hchosen
    have hperm : List.Perm sel ai := by
      rw [hsel]
      exact selectKClosestInPlace_perm ai toSac wp
    have hlen : sel.length = ai.length := hperm.length_eq
    have htle : toSac ≤ ai.length := by
      have h3 : (0:ℚ) ≤ (ai.length : ℚ) := Nat.cast_nonneg _
      have h2 : ((ai.length : ℚ)) * (10 / 100) ≤ ((ai.length : ℚ)) := by
        nlinarith
      have h1 : (⌊(ai.length : ℚ) * (10 / 100)⌋) ≤ ((ai.length : Nat) : Int) := by
        calc (⌊(ai.length : ℚ) * (10 / 100)⌋)
            ≤ ⌊((ai.length : ℚ))⌋ := Int.floor_le_floor h2
          _ = ((ai.length : Nat) : Int) := Int.floor_natCast _
      rw [htoSac]
      exact Int.toNat_le.mpr h1
    have hchlen : chosen.length = toSac := by
      rw [hchosen, List.length_map, List.length_take]
      omega
    have hainodup : (ai.map Probe.id).Nodup := by
      rw [hai]
      exact List.Nodup.sublist
        (List.Sublist.map Probe.id (List.filter_sublist probes)) hid
    have hselnodup : (sel.map Probe.id).Nodup :=
      ((hperm.map Probe.id).nodup_iff).mpr hainodup
    have hchnodup : chosen.Nodup := by
      rw [hchosen, List.map_take]
      exact List.Nodup.sublist (List.take_sublist _ _) hselnodup
    have hchsub : ∀ x ∈ chosen, x ∈ probes.map Probe.id := by
      intro x hx
      rw [hchosen] at hx
      obtain ⟨q, hq, hqe⟩ := List.mem_map.mp hx
      have hq3 : q ∈ ai := hperm.subset (List.take_subset _ _ hq)
      have hq4 : q ∈ probes := by
        rw [hai] at hq3
        exact List.mem_of_mem_filter hq3
      rw [← hqe]
      exact List.mem_map_of_mem Probe.id hq4
    have hmem_ai : ∀ p ∈ probes, chosen.contains p.id = true →
        p.isPlayer = false := by
      intro p hp hc
      have hpid : p.id ∈ chosen := List.elem_iff.mp hc
      rw [hchosen] at hpid
      obtain ⟨q, hq, hqe⟩ := List.mem_map.mp hpid
      have hq3 : q ∈ ai := hperm.subset (List.take_subset _ _ hq)
      have hq4 : q ∈ probes := by
        rw [hai] at hq3
        exact List.mem_of_mem_filter hq3
      have hqp : q = p := List.inj_on_of_nodup_map hid hq4 hp hqe
      rw [hai, List.mem_filter] at hq3
      have hfp : (!q.isPlayer && !q.dead) = true := hq3.2
      rw [hqp] at hfp
      simp only [Bool.and_eq_true, Bool.not_eq_true'] at hfp
      exact hfp.1
    have hcount : countSac (probes.map (fun p =>
        if chosen.contains p.id then beginSacrifice p wp (timers p.id)
        else p)) = toSac := by
      rw [countSac_eq_countP, List.countP_map]
      have hpt : ∀ p ∈ probes,
          ((fun p => p.sacrificing && !p.dead) ∘ (fun p =>
            if chosen.contains p.id then beginSacrifice p wp (timers p.id)
            else p)) p = (fun p => chosen.contains p.id) p := by
        intro p hp
        by_cases hc : chosen.contains p.id = true
        · have hpl := hmem_ai p hp hc
          simp only [Function.comp_apply, if_pos hc,
            beginSacrifice_ai p wp (timers p.id) hpl]
          simp [hnd p hp, hc]
          exact List.elem_iff.mp hc
        · have hc2 : chosen.contains p.id = false := by
            cases hcc : chosen.contains p.id
            · rfl
            · exact absurd hcc hc
          simp only [Function.comp_apply, if_neg hc, hns p hp,
            Bool.false_and]
          exact hc2.symm
      rw [List.countP_congr (fun a ha => by rw [hpt a ha])]
      have hmapid : List.countP (fun p => chosen.contains p.id) probes
          = List.countP (fun i => chosen.contains i) (probes.map Probe.id) := by
        rw [List.countP_map]
        rfl
      rw [hmapid, countP_contains_of_nodup _ _ hid hchnodup hchsub, hchlen]
    refine ⟨by trivial, by trivial, by trivial, ?_, ?_, by trivial,
      Or.inl ⟨by trivial, ?_⟩⟩
    · intro p hp
      obtain ⟨q, hq, hfq⟩ := List.mem_map.mp hp
      rw [← hfq]
      by_cases hc : chosen.contains q.id = true
      · rw [if_pos hc, beginSacrifice_dead]
        exact hnd q hq
      · rw [if_neg hc]
        exact hnd q hq
    · intro p hp hppl
      obtain ⟨q, hq, hfq⟩ := List.mem_map.mp hp
      by_cases hc : chosen.contains q.id = true
      · have hqpl := hmem_ai q hq hc
        rw [← hfq, if_pos hc] at hppl
        rw [beginSacrifice_isPlayer, hqpl] at hppl
        exact absurd hppl (by simp)
      · rw [← hfq, if_neg hc]
        exact hns q hq
    · show (0 : Nat) + countSac (probes.map (fun p =>
          if chosen.contains p.id then beginSacrifice p wp (timers p.id)
          else p)) = toSac
      rw [hcount]
      omega

/-- Claim C3: when RALLY hands over to BUILD through `startBuild`,
`master.toSacrifice` is set to `⌊0.10 · (living non-player population)⌋`,
exactly that many probes enter the sacrificing state (the player is never
among them) and `master.sacrificed` is reset to `0`; then along every run of
BUILD/CHARGE ticks (timer countdown, master update, dead-probe compaction),
`toSacrifice` stays fixed, the player never sacrifices, during BUILD
`sacrificed` plus the live sacrificing population always equals
`toSacrifice`, and as soon as CHARGE begins `sacrificed` has increased by
exactly `toSacrifice` (counted during the compaction pass) with nobody left
sacrificing. -/
theorem sacrifice_accounting (probes : List Probe) (m : MasterRec)
    (wp : ℚ × ℚ) (timers : Nat → ℚ) (dt : ℚ) (hdt : 0 < dt)
    (hnd : ∀ p ∈ probes, p.dead = false)
    (hns : ∀ p ∈ probes, p.sacrificing = false)
    (hid : (probes.map Probe.id).Nodup) :
    (startBuild probes m wp timers).2.toSacrifice
      = (⌊((probes.filter (fun p => !p.isPlayer && !p.dead)).length : ℚ)
          * (10 / 100)⌋).toNat ∧
    (startBuild probes m wp timers).2.state = MState.BUILD ∧
    (startBuild probes m wp timers).2.sacrificed = 0 ∧
    countSac (startBuild probes m wp timers).1
      = (startBuild probes m wp timers).2.toSacrifice ∧
    (∀ p ∈ (startBuild probes m wp timers).1,
      p.isPlayer = true → p.sacrificing = false) ∧
    (∀ n,
      (buildRun dt (startBuild probes m wp timers) n).2.toSacrifice
          = (startBuild probes m wp timers).2.toSacrifice ∧
      (∀ p ∈ (buildRun dt (startBuild probes m wp timers) n).1,
        p.isPlayer = true → p.sacrificing = false) ∧
      ((buildRun dt (startBuild probes m wp timers) n).2.state
          = MState.BUILD →
        (buildRun dt (startBuild probes m wp timers) n).2.sacrificed
            + countSac (buildRun dt (startBuild probes m wp timers) n).1
          = (startBuild probes m wp timers).2.toSacrifice) ∧
      ((buildRun dt (startBuild probes m wp timers) n).2.state
          = MState.CHARGE →
        (buildRun dt (startBuild probes m wp timers) n).2.sacrificed
            = (startBuild probes m wp timers).2.toSacrifice ∧
        countSac (buildRun dt (startBuild probes m wp timers) n).1 = 0)) := by
  obtain ⟨hstate, hsac0, htosv, hinv⟩ :=
    startBuild_spec probes m wp timers hnd hns hid
  have hinv2 := hinv
  obtain ⟨hdinv, hplinv, htinv, horinv⟩ := hinv2
  have hcnt : countSac (startBuild probes m wp timers).1
      = (startBuild probes m wp timers).2.toSacrifice := by
    rcases horinv with ⟨_, hacc⟩ | ⟨hch, _, _⟩
    · omega
    · rw [hstate] at hch
      exact absurd hch (by decide)
  refine ⟨htosv, hstate, hsac0, hcnt, hplinv, ?_⟩
  intro n
  obtain ⟨hd2, hpl2, ht2, hor2⟩ :=
    buildRun_preserves (startBuild probes m wp timers).2.toSacrifice dt hdt
      (startBuild probes m wp timers) hinv n
  refine ⟨ht2, hpl2, ?_, ?_⟩
  · intro hb
    rcases hor2 with ⟨_, hacc⟩ | ⟨hch, _, _⟩
    · exact hacc
    · rw [hb] at hch
      exact absurd hch (by decide)
  · intro hc
    rcases hor2 with ⟨hbu, _⟩ | ⟨_, hsc, hz⟩
    · rw [hc] at hbu
      exact absurd hbu (by decide)
    · exact ⟨hsc, hz⟩

unseal Rat.sub Rat.add Rat.mul Rat.inv in
theorem sacrifice_accounting_witness :
    (∀ p ∈ sacW, p.dead = false) ∧
    (∀ p ∈ sacW, p.sacrificing = false) ∧
    (sacW.map Probe.id).Nodup ∧
    (startBuild sacW default (0, 0) (fun _ => 1)).2.toSacrifice = 1 ∧
    countSac (startBuild sacW default (0, 0) (fun _ => 1)).1 = 1 := by
  have h := sacrifice_accounting sacW default (0, 0) (fun _ => 1) 1 one_pos
    (by decide) (by decide) (by decide)
  refine ⟨by decide, by decide, by decide, ?_, ?_⟩
  · rw [h.1]
    decide
  · rw [h.2.2.2.1, h.1]
    decide

/-! ## Grid consistency: C8 -/

theorem resGridW_eq : resGridW = 35 := by
  rw [resGridW, show WORLD.w / RES_CELL = (240 : ℚ) / 7 by
    rw [show WORLD.w = (24000 : ℚ) from rfl, RES_CELL]; norm_num]
  rw [Int.ceil_eq_iff]
  constructor <;> norm_num

theorem resGridH_eq : resGridH = 35 := by
  rw [resGridH, show WORLD.h / RES_CELL = (240 : ℚ) / 7 by
    rw [show WORLD.h = (24000 : ℚ) from rfl, RES_CELL]; norm_num]
  rw [Int.ceil_eq_iff]
  constructor <;> norm_num

theorem cellIndexForPos_bounds (x y : ℚ) (hx : 0 ≤ x) (hy : 0 ≤ y) :
    0 ≤ cellIndexForPos x y ∧ cellIndexForPos x y < resGridW * resGridH := by
  have hrc : (0 : ℚ) < RES_CELL := by rw [RES_CELL]; norm_num
  have hcx0 : 0 ≤ truncQ (x / RES_CELL) := by
    rw [truncQ, if_pos (by positivity)]
    exact Int.floor_nonneg.mpr (by positivity)
  have hcy0 : 0 ≤ truncQ (y / RES_CELL) := by
    rw [truncQ, if_pos (by positivity)]
    exact Int.floor_nonneg.mpr (by positivity)
  simp only [cellIndexForPos]
  rw [resGridW_eq, resGridH_eq]
  set cx0 := truncQ (x / RES_CELL)
  set cy0 := truncQ (y / RES_CELL)
  split_ifs with h1 h2 h2 <;> constructor <;> omega

theorem getD_append_length {α : Type} (l : List α) (a d : α) :
    (l ++ [a]).getD l.length d = a := by
  rw [List.getD_eq_getElem?_getD]
  simp

theorem getD_dropLast {α : Type} (l : List α) (i : Nat) (d : α)
    (h : i < l.length - 1) : l.dropLast.getD i d = l.getD i d := by
  rw [List.getD_eq_getElem _ _ (by simp [List.length_dropLast]; omega),
    List.getD_eq_getElem _ _ (by omega), List.getElem_dropLast]

theorem cellsOk_not_stored (st : SimState) (idx : Nat)
    (hcells : cellsOk st)
    (hdet : (st.resources.getD idx default).gridCell = -1) :
    ∀ c, c < st.resGrid.length → ∀ k, k < (st.resGrid.getD c []).length →
      (st.resGrid.getD c []).getD k 0 ≠ idx := by
  intro c hc k hk heq
  have h3 := (hcells c hc k hk).2.1
  rw [heq, hdet] at h3
  omega

theorem gridAddResource_spec (st : SimState) (idx : Nat)
    (hcells : cellsOk st) (hidx : idx < st.resources.length)
    (hdet : (st.resources.getD idx default).gridCell = -1)
    (hci : (cellIndexForPos (st.resources.getD idx default).x
        (st.resources.getD idx default).y).toNat < st.resGrid.length) :
    (gridAddResource st idx).resources.length = st.resources.length ∧
    (gridAddResource st idx).resGrid.length = st.resGrid.length ∧
    (gridAddResource st idx).resourceActive = st.resourceActive ∧
    cellsOk (gridAddResource st idx) ∧
    (gridAddResource st idx).resources.getD idx default
      = { st.resources.getD idx default with
          gridCell := (((cellIndexForPos (st.resources.getD idx default).x
              (st.resources.getD idx default).y).toNat : Nat) : Int),
          gridIndex := ((st.resGrid.getD (cellIndexForPos
              (st.resources.getD idx default).x
              (st.resources.getD idx default).y).toNat []).length : Int) } ∧
    (∀ j, j ≠ idx →
      (gridAddResource st idx).resources.getD j default
        = st.resources.getD j default) ∧
    (∀ c, c ≠ (cellIndexForPos (st.resources.getD idx default).x
        (st.resources.getD idx default).y).toNat →
      (gridAddResource st idx).resGrid.getD c [] = st.resGrid.getD c []) ∧
    (gridAddResource st idx).resGrid.getD (cellIndexForPos
        (st.resources.getD idx default).x
        (st.resources.getD idx default).y).toNat []
      = st.resGrid.getD (cellIndexForPos (st.resources.getD idx default).x
          (st.resources.getD idx default).y).toNat [] ++ [idx] := by
  have hnst := cellsOk_not_stored st idx hcells hdet
  simp only [gridAddResource]
  set r := st.resources.getD idx default with hr
  set ci := (cellIndexForPos r.x r.y).toNat with hciD
  set cell := st.resGrid.getD ci [] with hcell
  refine ⟨by simp, by simp, by trivial, ?_, ?_, ?_, ?_, ?_⟩
  · intro c hc k hk
    rw [List.length_set] at hc
    by_cases hcci : c = ci
    · subst hcci
      rw [getD_set_self _ _ _ _ hci] at hk ⊢
      rw [List.length_append, List.length_cons, List.length_nil] at hk
      by_cases hkl : k < cell.length
      · rw [getD_append_left _ _ _ _ hkl]
        obtain ⟨hlt, hbc, hbi⟩ := hcells ci hci k hkl
        have hne : cell.getD k 0 ≠ idx := hnst ci hci k hkl
        rw [List.length_set, getD_set_ne _ _ _ _ _ (Ne.symm hne)]
        exact ⟨hlt, hbc, hbi⟩
      · have hkeq : k = cell.length := by omega
        subst hkeq
        rw [getD_append_length]
        rw [List.length_set, getD_set_self _ _ _ _ hidx]
        exact ⟨hidx, rfl, rfl⟩
    · rw [getD_set_ne _ _ _ _ _ (fun h => hcci h.symm)] at hk ⊢
      obtain ⟨hlt, hbc, hbi⟩ := hcells c hc k hk
      have hne : (st.resGrid.getD c []).getD k 0 ≠ idx := hnst c hc k hk
      rw [List.length_set, getD_set_ne _ _ _ _ _ (Ne.symm hne)]
      exact ⟨hlt, hbc, hbi⟩
  · rw [getD_set_self _ _ _ _ hidx]
  · intro j hj
    rw [getD_set_ne _ _ _ _ _ (Ne.symm hj)]
  · intro c hc
    rw [getD_set_ne _ _ _ _ _ (Ne.symm hc)]
  · rw [getD_set_self _ _ _ _ hci]

theorem gridRemoveResource_noop (st : SimState) (idx : Nat)
    (h : (st.resources.getD idx default).gridCell < 0 ∨
      (st.resources.getD idx default).gridIndex < 0) :
    gridRemoveResource st idx = st := by
  simp only [gridRemoveResource]
  rw [if_pos h]

theorem gridRemoveResource_spec (st : SimState) (idx ciN giN : Nat)
    (L : List Nat) (lastIdx : Nat)
    (hci : ciN = (st.resources.getD idx default).gridCell.toNat)
    (hgi : giN = (st.resources.getD idx default).gridIndex.toNat)
    (hL : L = st.resGrid.getD ciN [])
    (hlast : lastIdx = L.getD (L.length - 1) 0)
    (hcells : cellsOk st) (hidx : idx < st.resources.length)
    (hci0 : 0 ≤ (st.resources.getD idx default).gridCell)
    (hgi0 : 0 ≤ (st.resources.getD idx default).gridIndex)
    (hcilt : ciN < st.resGrid.length)
    (hgilt : giN < L.length)
    (hplace : L.getD giN 0 = idx) :
    (gridRemoveResource st idx).resources.length = st.resources.length ∧
    (gridRemoveResource st idx).resGrid.length = st.resGrid.length ∧
    (gridRemoveResource st idx).resourceActive = st.resourceActive ∧
    cellsOk (gridRemoveResource st idx) ∧
    (gridRemoveResource st idx).resources.getD idx default
      = { st.resources.getD idx default with
          gridCell := -1, gridIndex := -1 } ∧
    (∀ j, j ≠ idx → j ≠ lastIdx →
      (gridRemoveResource st idx).resources.getD j default
        = st.resources.getD j default) ∧
    (lastIdx ≠ idx →
      (gridRemoveResource st idx).resources.getD lastIdx default
        = { st.resources.getD lastIdx default with
            gridIndex := (st.resources.getD idx default).gridIndex }) ∧
    (∀ c, c ≠ ciN →
      (gridRemoveResource st idx).resGrid.getD c []
        = st.resGrid.getD c []) ∧
    (gridRemoveResource st idx).resGrid.getD ciN []
      = (L.set giN lastIdx).dropLast := by
  have hL1 : 1 ≤ L.length := by omega
  obtain ⟨hlast_lt, hlast_bc, hlast_bi⟩ :=
    hcells ciN hcilt (L.length - 1) (by rw [← hL]; omega)
  rw [← hL, ← hlast] at hlast_lt hlast_bc hlast_bi
  obtain ⟨hidx_lt, hidx_bc, hidx_bi⟩ :=
    hcells ciN hcilt giN (by rw [← hL]; omega)
  rw [← hL, hplace] at hidx_lt hidx_bc hidx_bi
  simp only [gridRemoveResource]
  rw [if_neg (by push_neg; exact ⟨hci0, hgi0⟩)]
  rw [← hci, ← hgi, ← hL, ← hlast]
  refine ⟨by simp, by simp, by trivial, ?_, ?_, ?_, ?_, ?_, ?_⟩
  · intro c hc k hk
    rw [List.length_set] at hc
    by_cases hcci : c = ciN
    · rw [hcci] at hk ⊢
      rw [getD_set_self _ _ _ _ hcilt] at hk ⊢
      rw [List.length_dropLast, List.length_set] at hk
      rw [getD_dropLast _ _ _ (by rw [List.length_set]; omega)]
      by_cases hkg : k = giN
      · rw [hkg] at hk ⊢
        rw [getD_set_self _ _ _ _ hgilt]
        have hlio : lastIdx ≠ idx := by
          intro he
          rw [he, hidx_bi] at hlast_bi
          omega
        rw [getD_set_ne _ _ _ _ _ (Ne.symm hlio),
          getD_set_self _ _ _ _ hlast_lt]
        refine ⟨?_, hlast_bc, hidx_bi⟩
        simp only [List.length_set]
        exact hlast_lt
      · rw [getD_set_ne _ _ _ _ _ (Ne.symm hkg)]
        obtain ⟨hjl, hjbc, hjbi⟩ := hcells ciN hcilt k (by rw [← hL]; omega)
        rw [← hL] at hjl hjbc hjbi
        have hjidx : L.getD k 0 ≠ idx := by
          intro he
          rw [he, hidx_bi] at hjbi
          omega
        have hjlast : L.getD k 0 ≠ lastIdx := by
          intro he
          rw [he, hlast_bi] at hjbi
          omega
        rw [getD_set_ne _ _ _ _ _ (Ne.symm hjidx),
          getD_set_ne _ _ _ _ _ (Ne.symm hjlast)]
        refine ⟨?_, hjbc, hjbi⟩
        simp only [List.length_set]
        exact hjl
    · rw [getD_set_ne _ _ _ _ _ (fun h => hcci h.symm)] at hk ⊢
      obtain ⟨hjl, hjbc, hjbi⟩ := hcells c hc k hk
      have hjidx : (st.resGrid.getD c []).getD k 0 ≠ idx := by
        intro he
        rw [he, hidx_bc] at hjbc
        exact hcci (by omega)
      have hjlast : (st.resGrid.getD c []).getD k 0 ≠ lastIdx := by
        intro he
        rw [he, hlast_bc] at hjbc
        exact hcci (by omega)
      rw [getD_set_ne _ _ _ _ _ (Ne.symm hjidx),
        getD_set_ne _ _ _ _ _ (Ne.symm hjlast)]
      refine ⟨?_, hjbc, hjbi⟩
      simp only [List.length_set]
      exact hjl
  · rw [getD_set_self _ _ _ _ (by rw [List.length_set]; exact hidx)]
    by_cases hli : lastIdx = idx
    · rw [hli, getD_set_self _ _ _ _ hidx]
    · rw [getD_set_ne _ _ _ _ _ hli]
  · intro j hjidx hjlast
    rw [getD_set_ne _ _ _ _ _ (Ne.symm hjidx),
      getD_set_ne _ _ _ _ _ (Ne.symm hjlast)]
  · intro hli
    rw [getD_set_ne _ _ _ _ _ (Ne.symm hli),
      getD_set_self _ _ _ _ hlast_lt]
  · intro c hcne
    rw [getD_set_ne _ _ _ _ _ (Ne.symm hcne)]
  · rw [getD_set_self _ _ _ _ hcilt]

theorem getD_mem {α : Type} [Inhabited α] (l : List α) (i : Nat)
    (h : i < l.length) : l.getD i default ∈ l := by
  rw [List.getD_eq_getElem _ _ h]
  exact List.getElem_mem _

theorem boundsOk_of_fields (st st' : SimState)
    (hlen : st'.resources.length = st.resources.length)
    (hxy : ∀ j, j < st'.resources.length →
      (st'.resources.getD j default).x = (st.resources.getD j default).x ∧
      (st'.resources.getD j default).y = (st.resources.getD j default).y)
    (hb : boundsOk st) : boundsOk st' := by
  intro r hr
  obtain ⟨j, hj, hje⟩ := List.mem_iff_getElem.mp hr
  have hge : st'.resources.getD j default = r := by
    rw [List.getD_eq_getElem _ _ hj, hje]
  obtain ⟨hx, hy⟩ := hxy j hj
  subst hge
  rw [hx, hy]
  exact hb _ (getD_mem _ _ (by omega))

theorem activateResource_preserves (st : SimState) (idx : Nat)
    (hinv : GridInv st) (hidx : idx < st.resources.length)
    (hact : (st.resources.getD idx default).active = false) :
    GridInv (activateResource st idx) := by
  obtain ⟨hglen, hb, hcells, hap, hdet⟩ := hinv
  obtain ⟨hdc, hdg⟩ := hdet idx hidx hact
  have hrmem := getD_mem st.resources idx hidx
  obtain ⟨hx0, hxw, hy0, hyh⟩ := hb _ hrmem
  have hcb := cellIndexForPos_bounds (st.resources.getD idx default).x
    (st.resources.getD idx default).y hx0 hy0
  have hcilt : (cellIndexForPos (st.resources.getD idx default).x
      (st.resources.getD idx default).y).toNat < st.resGrid.length := by
    rw [hglen]
    omega
  have hnst := cellsOk_not_stored st idx hcells hdc
  simp only [activateResource]
  set rAct : GRes := { st.resources.getD idx default with active := true, activeIndex := (st.resourceActive.length : Int) } with hrAct
  set st1 : SimState := { st with resources := st.resources.set idx rAct, resourceActive := st.resourceActive ++ [idx] } with hst1
  have hst1len : st1.resources.length = st.resources.length := by
    rw [hst1]
    simp
  have hst1grid : st1.resGrid = st.resGrid := by rw [hst1]
  have hst1idx : st1.resources.getD idx default = rAct := by
    simp only [hst1]
    rw [getD_set_self _ _ _ _ hidx]
  have hst1ne : ∀ j, j ≠ idx →
      st1.resources.getD j default = st.resources.getD j default := by
    intro j hj
    simp only [hst1]
    rw [getD_set_ne _ _ _ _ _ (Ne.symm hj)]
  have hrx : rAct.x = (st.resources.getD idx default).x := rfl
  have hry : rAct.y = (st.resources.getD idx default).y := rfl
  have hractive : rAct.active = true := rfl
  have hrc : rAct.gridCell = (st.resources.getD idx default).gridCell := rfl
  have hcells1 : cellsOk st1 := by
    intro c hc k hk
    rw [hst1grid] at hc hk ⊢
    obtain ⟨hjl, hjbc, hjbi⟩ := hcells c hc k hk
    have hne := hnst c hc k hk
    rw [hst1ne _ hne, hst1len]
    exact ⟨hjl, hjbc, hjbi⟩
  have hdet1 : (st1.resources.getD idx default).gridCell = -1 := by
    rw [hst1idx, hrc]
    exact hdc
  have hci1 : (cellIndexForPos (st1.resources.getD idx default).x
      (st1.resources.getD idx default).y).toNat < st1.resGrid.length := by
    rw [hst1idx, hrx, hry, hst1grid]
    exact hcilt
  obtain ⟨glen2, ggrid2, _, gcells2, gidx2, gne2, gcellne2, gcellci2⟩ :=
    gridAddResource_spec st1 idx hcells1 (by rw [hst1len]; exact hidx)
      hdet1 hci1
  rw [hst1idx, hrx, hry] at gidx2 gcellne2 gcellci2
  rw [hst1grid] at gcellci2 gcellne2
  set ciN := (cellIndexForPos (st.resources.getD idx default).x
    (st.resources.getD idx default).y).toNat with hciN
  set cl := st.resGrid.getD ciN [] with hcl
  set rPl : GRes := { rAct with gridCell := (ciN : Int), gridIndex := (cl.length : Int) } with hrPl
  have hpx : rPl.x = (st.resources.getD idx default).x := rfl
  have hpy : rPl.y = (st.resources.getD idx default).y := rfl
  have hpactive : rPl.active = true := rfl
  have hpc : rPl.gridCell = (ciN : Int) := rfl
  have hpg : rPl.gridIndex = (cl.length : Int) := rfl
  refine ⟨?_, ?_, gcells2, ?_, ?_⟩
  · rw [ggrid2, hst1grid, hglen]
  · refine boundsOk_of_fields st _ (glen2.trans hst1len) ?_ hb
    intro j hj
    by_cases hji : j = idx
    · rw [hji, gidx2]
      exact ⟨hpx, hpy⟩
    · rw [gne2 j hji, hst1ne j hji]
      exact ⟨rfl, rfl⟩
  · intro j hj hactj
    rw [glen2, hst1len] at hj
    by_cases hji : j = idx
    · rw [hji] at hactj ⊢
      rw [gidx2] at hactj ⊢
      refine ⟨?_, ?_, ?_, ?_⟩
      · rw [hpc, hpx, hpy]
        exact Int.toNat_of_nonneg hcb.1
      · rw [hpg]
        positivity
      · rw [hpg, hpc, Int.toNat_natCast, gcellci2]
        simp
      · rw [hpg, hpc, Int.toNat_natCast, Int.toNat_natCast, gcellci2]
        exact getD_append_length _ _ _
    · have hjeq : (gridAddResource st1 idx).resources.getD j default
          = st.resources.getD j default := by
        rw [gne2 j hji, hst1ne j hji]
      rw [hjeq] at hactj ⊢
      obtain ⟨pbc, pgi0, pgilt, pplace⟩ := hap j hj hactj
      refine ⟨pbc, pgi0, ?_, ?_⟩
      · by_cases hcj : (st.resources.getD j default).gridCell.toNat = ciN
        · rw [hcj, gcellci2]
          rw [hcj] at pgilt
          rw [← hcl] at pgilt
          simp only [List.length_append, List.length_cons, List.length_nil]
          push_cast at pgilt ⊢
          omega
        · rw [gcellne2 _ hcj]
          exact pgilt
      · by_cases hcj : (st.resources.getD j default).gridCell.toNat = ciN
        · rw [hcj, gcellci2]
          rw [hcj] at pgilt pplace
          rw [← hcl] at pgilt pplace
          rw [getD_append_left _ _ _ _ (by push_cast at pgilt; omega)]
          exact pplace
        · rw [gcellne2 _ hcj]
          exact pplace
  · intro j hj hactj
    rw [glen2, hst1len] at hj
    by_cases hji : j = idx
    · rw [hji, gidx2] at hactj
      rw [show rPl.active = true from rfl] at hactj
      cases hactj
    · rw [gne2 j hji, hst1ne j hji] at hactj ⊢
      exact hdet j hj hactj

theorem deactivateResource_preserves (st : SimState) (idx : Nat)
    (hinv : GridInv st) : GridInv (deactivateResource st idx) := by
  obtain ⟨hglen, hb, hcells, hap, hdet⟩ := hinv
  simp only [deactivateResource]
  by_cases hact : (st.resources.getD idx default).active = false
  · rw [if_pos hact]
    exact ⟨hglen, hb, hcells, hap, hdet⟩
  · rw [if_neg hact]
    have hactT : (st.resources.getD idx default).active = true := by
      cases h : (st.resources.getD idx default).active
      · exact absurd h hact
      · rfl
    have hidx : idx < st.resources.length := by
      by_contra hge
      rw [getD_of_length_le _ _ _ (by omega)] at hactT
      cases hactT
    obtain ⟨pbc, pgi0, pgilt, pplace⟩ := hap idx hidx hactT
    have hrmem := getD_mem st.resources idx hidx
    obtain ⟨hx0, hxw, hy0, hyh⟩ := hb _ hrmem
    have hcb := cellIndexForPos_bounds (st.resources.getD idx default).x
      (st.resources.getD idx default).y hx0 hy0
    have hci0 : 0 ≤ (st.resources.getD idx default).gridCell := by
      rw [pbc]
      exact hcb.1
    have hcilt : (st.resources.getD idx default).gridCell.toNat
        < st.resGrid.length := by
      rw [hglen, pbc]
      omega
    set ciN := (st.resources.getD idx default).gridCell.toNat with hciN
    set giN := (st.resources.getD idx default).gridIndex.toNat with hgiN
    set L := st.resGrid.getD ciN [] with hL
    set lastC := L.getD (L.length - 1) 0 with hlastC
    have hgilt : giN < L.length := by omega
    obtain ⟨hlast_lt, hlast_bc, hlast_bi⟩ :=
      hcells ciN hcilt (L.length - 1) (by rw [← hL]; omega)
    rw [← hL, ← hlastC] at hlast_lt hlast_bc hlast_bi
    obtain ⟨rlen, rglen, ract, rcells, ridx, rne, rlast, rcellne, rcellci⟩ :=
      gridRemoveResource_spec st idx ciN giN L lastC hciN hgiN hL hlastC
        hcells hidx hci0 pgi0 hcilt hgilt pplace
    set st1 := gridRemoveResource st idx with hst1
    set ai := (st1.resources.getD idx default).activeIndex with hai
    set lastA := st1.resourceActive.getD (st1.resourceActive.length - 1) 0 with hlastA
    set res2 := st1.resources.set lastA { st1.resources.getD lastA default with activeIndex := ai } with hres2
    set res3 := res2.set idx { res2.getD idx default with active := false, activeIndex := -1 } with hres3
    set act2 := (st1.resourceActive.set ai.toNat lastA).dropLast with hact2
    have hlen2 : res2.length = st.resources.length := by
      rw [hres2]
      simp only [List.length_set]
      exact rlen
    have hlen3 : res3.length = st.resources.length := by
      rw [hres3]
      simp only [List.length_set]
      exact hlen2
    have h3idx : (res3.getD idx default).gridCell
          = (st1.resources.getD idx default).gridCell ∧
        (res3.getD idx default).gridIndex
          = (st1.resources.getD idx default).gridIndex ∧
        (res3.getD idx default).active = false ∧
        (res3.getD idx default).x = (st1.resources.getD idx default).x ∧
        (res3.getD idx default).y = (st1.resources.getD idx default).y := by
      rw [hres3, getD_set_self _ _ _ _ (by rw [hlen2]; exact hidx), hres2]
      by_cases hlj : lastA = idx
      · rw [hlj]
        by_cases hlen : idx < st1.resources.length
        · rw [getD_set_self _ _ _ _ hlen]
          exact ⟨rfl, rfl, rfl, rfl, rfl⟩
        · rw [List.set_eq_of_length_le (by omega)]
          exact ⟨rfl, rfl, rfl, rfl, rfl⟩
      · rw [getD_set_ne _ _ _ _ _ hlj]
        exact ⟨rfl, rfl, rfl, rfl, rfl⟩
    have h3proj : ∀ j, j ≠ idx →
        (res3.getD j default).gridCell
          = (st1.resources.getD j default).gridCell ∧
        (res3.getD j default).gridIndex
          = (st1.resources.getD j default).gridIndex ∧
        (res3.getD j default).active
          = (st1.resources.getD j default).active ∧
        (res3.getD j default).x = (st1.resources.getD j default).x ∧
        (res3.getD j default).y = (st1.resources.getD j default).y := by
      intro j h1
      rw [hres3, getD_set_ne _ _ _ _ _ (Ne.symm h1), hres2]
      by_cases hjl : j = lastA
      · rw [hjl]
        by_cases hlen : lastA < st1.resources.length
        · rw [getD_set_self _ _ _ _ hlen]
          exact ⟨rfl, rfl, rfl, rfl, rfl⟩
        · rw [List.set_eq_of_length_le (by omega)]
          exact ⟨rfl, rfl, rfl, rfl, rfl⟩
      · rw [getD_set_ne _ _ _ _ _ (Ne.symm hjl)]
        exact ⟨rfl, rfl, rfl, rfl, rfl⟩
    have hst1xy : ∀ j, j ≠ idx →
        (st1.resources.getD j default).active
          = (st.resources.getD j default).active ∧
        (st1.resources.getD j default).x = (st.resources.getD j default).x ∧
        (st1.resources.getD j default).y = (st.resources.getD j default).y := by
      intro j h1
      by_cases hjl : j = lastC
      · rw [hjl, rlast (by rw [← hjl]; exact h1)]
        exact ⟨rfl, rfl, rfl⟩
      · rw [rne j h1 hjl]
        exact ⟨rfl, rfl, rfl⟩
    have hidxdet : (st1.resources.getD idx default).gridCell = -1 ∧
        (st1.resources.getD idx default).gridIndex = -1 := by
      rw [ridx]
      exact ⟨rfl, rfl⟩
    have hnst1 : ∀ c, c < st1.resGrid.length →
        ∀ k, k < (st1.resGrid.getD c []).length →
          (st1.resGrid.getD c []).getD k 0 ≠ idx :=
      cellsOk_not_stored st1 idx rcells hidxdet.1
    refine ⟨?_, ?_, ?_, ?_, ?_⟩
    · show st1.resGrid.length = (resGridW * resGridH).toNat
      rw [rglen, hglen]
    · refine boundsOk_of_fields st _ hlen3 ?_ ?_
      · intro j hj
        by_cases hji : j = idx
        · rw [hji]
          refine ⟨h3idx.2.2.2.1.trans ?_, h3idx.2.2.2.2.trans ?_⟩
          · rw [ridx]
          · rw [ridx]
        · obtain ⟨_, _, _, h4, h5⟩ := h3proj j hji
          obtain ⟨_, h7, h8⟩ := hst1xy j hji
          exact ⟨h4.trans h7, h5.trans h8⟩
      · exact hb
    · intro c hc k hk
      obtain ⟨hjl, hjbc, hjbi⟩ := rcells c hc k hk
      have hne := hnst1 c hc k hk
      obtain ⟨hgc, hgi, _, _, _⟩ := h3proj _ hne
      show (st1.resGrid.getD c []).getD k 0 < res3.length ∧
        (res3.getD ((st1.resGrid.getD c []).getD k 0) default).gridCell
          = (c : Int) ∧
        (res3.getD ((st1.resGrid.getD c []).getD k 0) default).gridIndex
          = (k : Int)
      rw [hlen3, hgc, hgi]
      exact ⟨by omega, hjbc, hjbi⟩
    · intro j hj hactj
      rw [hlen3] at hj
      by_cases hji : j = idx
      · rw [hji] at hactj
        rw [h3idx.2.2.1] at hactj
        cases hactj
      · obtain ⟨hgc, hgi, hac, hx, hy⟩ := h3proj j hji
        rw [hac, (hst1xy j hji).1] at hactj
        obtain ⟨qbc, qgi0, qgilt, qplace⟩ := hap j hj hactj
        have hxj : (res3.getD j default).x = (st.resources.getD j default).x :=
          hx.trans (hst1xy j hji).2.1
        have hyj : (res3.getD j default).y = (st.resources.getD j default).y :=
          hy.trans (hst1xy j hji).2.2
        by_cases hjl : j = lastC
        · have hgieq : (st1.resources.getD j default).gridIndex
              = (st.resources.getD idx default).gridIndex := by
            rw [hjl, rlast (by rw [← hjl]; exact hji)]
          have hbceq : (st1.resources.getD j default).gridCell
              = (st.resources.getD j default).gridCell := by
            rw [hjl, rlast (by rw [← hjl]; exact hji)]
          have hjciN : (st.resources.getD j default).gridCell = (ciN : Int) := by
            rw [hjl]
            exact hlast_bc
          have hjbi2 : (st.resources.getD j default).gridIndex
              = ((L.length - 1 : Nat) : Int) := by
            rw [hjl]
            exact hlast_bi
          have hgiNlt : giN < L.length - 1 := by
            rcases Nat.lt_or_ge giN (L.length - 1) with h | h
            · exact h
            · exfalso
              have : giN = L.length - 1 := by omega
              rw [← this] at hlastC
              rw [pplace] at hlastC
              exact hji (by rw [hjl, hlastC])
          refine ⟨?_, ?_, ?_, ?_⟩
          · rw [hgc, hbceq, hxj, hyj]
            exact qbc
          · rw [hgi, hgieq]
            exact pgi0
          · rw [hgi, hgieq, hgc, hbceq, hjciN, Int.toNat_natCast]
            show (st.resources.getD idx default).gridIndex
              < ((st1.resGrid.getD ciN []).length : Int)
            rw [rcellci]
            rw [List.length_dropLast, List.length_set]
            omega
          · rw [hgi, hgieq, hgc, hbceq, hjciN, Int.toNat_natCast]
            show (st1.resGrid.getD ciN []).getD
              (st.resources.getD idx default).gridIndex.toNat 0 = j
            rw [rcellci, ← hgiN,
              getD_dropLast _ _ _ (by rw [List.length_set]; omega),
              getD_set_self _ _ _ _ hgilt]
            exact hjl.symm
        · have hjeq : st1.resources.getD j default
              = st.resources.getD j default := rne j hji hjl
          by_cases hcj : (st.resources.getD j default).gridCell.toNat = ciN
          · rw [hcj] at qplace qgilt
            rw [← hL] at qplace qgilt
            have hkj : (st.resources.getD j default).gridIndex.toNat ≠ giN := by
              intro he
              rw [← he] at pplace
              rw [qplace] at pplace
              exact hji pplace
            have hkl : (st.resources.getD j default).gridIndex.toNat
                ≠ L.length - 1 := by
              intro he
              rw [← he] at hlastC
              rw [qplace] at hlastC
              exact hjl hlastC.symm
            have hklt : (st.resources.getD j default).gridIndex.toNat
                < L.length := by omega
            refine ⟨?_, ?_, ?_, ?_⟩
            · rw [hgc, hjeq, hxj, hyj]
              exact qbc
            · rw [hgi, hjeq]
              exact qgi0
            · rw [hgi, hgc, hjeq, hcj]
              show (st.resources.getD j default).gridIndex
                < ((st1.resGrid.getD ciN []).length : Int)
              rw [rcellci, List.length_dropLast, List.length_set]
              omega
            · rw [hgi, hgc, hjeq, hcj]
              show (st1.resGrid.getD ciN []).getD
                (st.resources.getD j default).gridIndex.toNat 0 = j
              rw [rcellci,
                getD_dropLast _ _ _ (by rw [List.length_set]; omega),
                getD_set_ne _ _ _ _ _ (Ne.symm hkj)]
              exact qplace
          · refine ⟨?_, ?_, ?_, ?_⟩
            · rw [hgc, hjeq, hxj, hyj]
              exact qbc
            · rw [hgi, hjeq]
              exact qgi0
            · rw [hgi, hgc, hjeq]
              show (st.resources.getD j default).gridIndex
                < ((st1.resGrid.getD
                  (st.resources.getD j default).gridCell.toNat []).length : Int)
              rw [rcellne _ hcj]
              exact qgilt
            · rw [hgi, hgc, hjeq]
              show (st1.resGrid.getD
                (st.resources.getD j default).gridCell.toNat []).getD
                (st.resources.getD j default).gridIndex.toNat 0 = j
              rw [rcellne _ hcj]
              exact qplace
    · intro j hj hactj
      rw [hlen3] at hj
      by_cases hji : j = idx
      · rw [hji]
        rw [h3idx.1, h3idx.2.1, ridx]
        exact ⟨rfl, rfl⟩
      · obtain ⟨hgc, hgi, hac, _, _⟩ := h3proj j hji
        rw [hac, (hst1xy j hji).1] at hactj
        obtain ⟨d1, d2⟩ := hdet j hj hactj
        have hjl : j ≠ lastC := by
          intro he
          rw [he] at d1
          rw [hlast_bc] at d1
          omega
        rw [hgc, hgi, rne j hji hjl]
        exact ⟨d1, d2⟩

theorem initResGrid_getD (c : Nat) : initResGrid.getD c [] = [] := by
  rcases Nat.lt_or_ge c initResGrid.length with h | h
  · rw [List.getD_eq_getElem _ _ h]
    exact List.getElem_replicate ..
  · exact getD_of_length_le _ _ _ h

theorem gridInv_empty : GridInv emptySystem := by
  refine ⟨?_, ?_, ?_, ?_, ?_⟩
  · show initResGrid.length = (resGridW * resGridH).toNat
    rw [initResGrid, List.length_replicate]
  · intro r hr
    exact absurd hr (List.not_mem_nil r)
  · intro c hc k hk
    rw [show emptySystem.resGrid = initResGrid from rfl,
      initResGrid_getD] at hk
    cases hk
  · intro i hi hact
    cases hi
  · intro i hi hact
    cases hi

theorem gridInv_congr (st st' : SimState)
    (hres : st'.resources = st.resources) (hgrid : st'.resGrid = st.resGrid)
    (h : GridInv st) : GridInv st' := by
  obtain ⟨h1, h2, h3, h4, h5⟩ := h
  refine ⟨?_, ?_, ?_, ?_, ?_⟩
  · rw [hgrid]
    exact h1
  · intro r hr
    rw [hres] at hr
    exact h2 r hr
  · intro c hc k hk
    rw [hgrid] at hc hk ⊢
    rw [hres]
    exact h3 c hc k hk
  · intro i hi hact
    rw [hres] at hi hact ⊢
    rw [hgrid]
    exact h4 i hi hact
  · intro i hi hact
    rw [hres] at hi hact ⊢
    exact h5 i hi hact

theorem gridInv_append_inactive (st : SimState) (r : GRes)
    (hinv : GridInv st)
    (hr : r.active = false ∧ r.gridCell = -1 ∧ r.gridIndex = -1)
    (hbr : 0 ≤ r.x ∧ r.x < WORLD.w ∧ 0 ≤ r.y ∧ r.y < WORLD.h) :
    GridInv { st with resources := st.resources ++ [r] } := by
  obtain ⟨h1, h2, h3, h4, h5⟩ := hinv
  refine ⟨h1, ?_, ?_, ?_, ?_⟩
  · intro q hq
    rcases List.mem_append.mp hq with h | h
    · exact h2 q h
    · rw [List.mem_singleton.mp h]
      exact hbr
  · intro c hc k hk
    obtain ⟨hjl, hjbc, hjbi⟩ := h3 c hc k hk
    rw [getD_append_left _ _ _ _ hjl]
    refine ⟨?_, hjbc, hjbi⟩
    show (st.resGrid.getD c []).getD k 0 < (st.resources ++ [r]).length
    rw [List.length_append]
    omega
  · intro i hi hact
    rw [List.length_append, List.length_cons, List.length_nil] at hi
    by_cases hil : i < st.resources.length
    · rw [getD_append_left _ _ _ _ hil] at hact ⊢
      exact h4 i hil hact
    · have hieq : i = st.resources.length := by omega
      rw [hieq, getD_append_length] at hact
      rw [hr.1] at hact
      cases hact
  · intro i hi hact
    rw [List.length_append, List.length_cons, List.length_nil] at hi
    by_cases hil : i < st.resources.length
    · rw [getD_append_left _ _ _ _ hil] at hact ⊢
      exact h5 i hil hact
    · have hieq : i = st.resources.length := by omega
      rw [hieq, getD_append_length] at hact ⊢
      exact ⟨hr.2.1, hr.2.2⟩

theorem spawnStep_preserves (st : SimState) (sp : ℚ × ℚ × ℚ)
    (hinv : GridInv st)
    (hsp : 0 ≤ sp.1 ∧ sp.1 < WORLD.w ∧ 0 ≤ sp.2.1 ∧ sp.2.1 < WORLD.h) :
    GridInv (spawnStep st sp) := by
  simp only [spawnStep]
  apply gridInv_congr _ _ rfl rfl
  have hext : GridInv { st with
      resources := st.resources ++ [makeResource sp.1 sp.2.1 sp.2.2] } :=
    gridInv_append_inactive st _ hinv ⟨rfl, rfl, rfl⟩ hsp
  apply activateResource_preserves _ _ hext
  · simp
  · rw [show ({ st with resources := st.resources
        ++ [makeResource sp.1 sp.2.1 sp.2.2] } : SimState).resources
      = st.resources ++ [makeResource sp.1 sp.2.1 sp.2.2] from rfl,
      getD_append_length]
    rfl

theorem spawnSystem_gridInv (specs : List (ℚ × ℚ × ℚ))
    (hb : ∀ sp ∈ specs,
      0 ≤ sp.1 ∧ sp.1 < WORLD.w ∧ 0 ≤ sp.2.1 ∧ sp.2.1 < WORLD.h) :
    GridInv (spawnSystem specs) := by
  have hfold : ∀ (l : List (ℚ × ℚ × ℚ)) (st : SimState), GridInv st →
      (∀ sp ∈ l,
        0 ≤ sp.1 ∧ sp.1 < WORLD.w ∧ 0 ≤ sp.2.1 ∧ sp.2.1 < WORLD.h) →
      GridInv (l.foldl spawnStep st) := by
    intro l
    induction l with
    | nil =>
      intro st h _
      exact h
    | cons a t ih =>
      intro st h hb2
      rw [List.foldl_cons]
      exact ih _ (spawnStep_preserves st a h (hb2 a (List.mem_cons_self a t)))
        (fun sp hsp => hb2 sp (List.mem_cons_of_mem a hsp))
  simp only [spawnSystem]
  apply gridInv_congr _ _ rfl rfl
  exact hfold specs emptySystem gridInv_empty hb

theorem gridRemove_under_inv (st : SimState) (idx : Nat)
    (hidxlen : idx < st.resources.length) (hinv : GridInv st) :
    cellsOk (gridRemoveResource st idx) ∧
    ∀ c, c < (gridRemoveResource st idx).resGrid.length →
      ∀ k, k < ((gridRemoveResource st idx).resGrid.getD c []).length →
        ((gridRemoveResource st idx).resGrid.getD c []).getD k 0 ≠ idx := by
  obtain ⟨hglen, hb, hcells, hap, hdet⟩ := hinv
  by_cases hact : (st.resources.getD idx default).active = true
  · obtain ⟨pbc, pgi0, pgilt, pplace⟩ := hap idx hidxlen hact
    have hrmem := getD_mem st.resources idx hidxlen
    obtain ⟨hx0, hxw, hy0, hyh⟩ := hb _ hrmem
    have hcb := cellIndexForPos_bounds (st.resources.getD idx default).x
      (st.resources.getD idx default).y hx0 hy0
    have hci0 : 0 ≤ (st.resources.getD idx default).gridCell := by
      rw [pbc]
      exact hcb.1
    have hcilt : (st.resources.getD idx default).gridCell.toNat
        < st.resGrid.length := by
      rw [hglen, pbc]
      omega
    have hgilt : (st.resources.getD idx default).gridIndex.toNat
        < (st.resGrid.getD
          (st.resources.getD idx default).gridCell.toNat []).length := by
      omega
    obtain ⟨rlen, rglen, ract, rcells, ridx, rne, rlast, rcellne, rcellci⟩ :=
      gridRemoveResource_spec st idx _ _ _ _ rfl rfl rfl rfl
        hcells hidxlen hci0 pgi0 hcilt hgilt pplace
    refine ⟨rcells, ?_⟩
    exact cellsOk_not_stored _ idx rcells (by rw [ridx])
  · have hdc : (st.resources.getD idx default).gridCell = -1 := by
      have hactF : (st.resources.getD idx default).active = false := by
        cases h : (st.resources.getD idx default).active
        · rfl
        · exact absurd h hact
      exact (hdet idx hidxlen hactF).1
    rw [gridRemoveResource_noop st idx (Or.inl (by rw [hdc]; norm_num))]
    exact ⟨hcells, cellsOk_not_stored st idx hcells hdc⟩

/-- Claim C8: the grid-consistency invariant — every active resource is
stored (via its `_gridCell`/`_gridIndex` back-references) in exactly the
cell computed from its current position by `cellIndexForPos`, and an
inactive resource has cleared back-references and appears in no grid cell —
is established by `spawnSystem` (for positions inside the world) and
preserved by `activateResource` (on a valid inactive index) and by
`deactivateResource` (unconditionally).  The two helpers are internal steps
of those operations and preserve the cell-side consistency: under its
call-site preconditions `gridAddResource` keeps every stored index
back-referenced to its own slot and appends the resource to exactly the
cell of its position, and `gridRemoveResource` keeps stored back-references
consistent and leaves the removed index in no grid cell. -/
theorem grid_consistency :
    (∀ specs : List (ℚ × ℚ × ℚ),
      (∀ sp ∈ specs,
        0 ≤ sp.1 ∧ sp.1 < WORLD.w ∧ 0 ≤ sp.2.1 ∧ sp.2.1 < WORLD.h) →
      GridInv (spawnSystem specs)) ∧
    (∀ st idx, GridInv st → idx < st.resources.length →
      (st.resources.getD idx default).active = false →
      GridInv (activateResource st idx)) ∧
    (∀ st idx, GridInv st → GridInv (deactivateResource st idx)) ∧
    (∀ st idx, GridInv st → idx < st.resources.length →
      (st.resources.getD idx default).active = false →
      ∀ c, c < st.resGrid.length → ∀ k, k < (st.resGrid.getD c []).length →
        (st.resGrid.getD c []).getD k 0 ≠ idx) ∧
    (∀ st idx, cellsOk st → idx < st.resources.length →
      (st.resources.getD idx default).gridCell = -1 →
      (cellIndexForPos (st.resources.getD idx default).x
        (st.resources.getD idx default).y).toNat < st.resGrid.length →
      cellsOk (gridAddResource st idx) ∧
      (gridAddResource st idx).resGrid.getD
          (cellIndexForPos (st.resources.getD idx default).x
            (st.resources.getD idx default).y).toNat []
        = st.resGrid.getD (cellIndexForPos
            (st.resources.getD idx default).x
            (st.resources.getD idx default).y).toNat [] ++ [idx]) ∧
    (∀ st idx, idx < st.resources.length → GridInv st →
      cellsOk (gridRemoveResource st idx) ∧
      ∀ c, c < (gridRemoveResource st idx).resGrid.length →
        ∀ k, k < ((gridRemoveResource st idx).resGrid.getD c []).length →
          ((gridRemoveResource st idx).resGrid.getD c []).getD k 0
            ≠ idx) := by
  refine ⟨spawnSystem_gridInv, activateResource_preserves,
    deactivateResource_preserves, ?_, ?_, gridRemove_under_inv⟩
  · intro st idx hinv hidx hact
    exact cellsOk_not_stored st idx hinv.2.2.1
      (hinv.2.2.2.2 idx hidx hact).1
  · intro st idx h1 h2 h3 h4
    obtain ⟨_, _, _, hcells, _, _, _, hcell⟩ :=
      gridAddResource_spec st idx h1 h2 h3 h4
    exact ⟨hcells, hcell⟩

unseal Rat.sub Rat.add Rat.mul Rat.inv in
theorem grid_consistency_witness :
    GridInv (spawnSystem [(100, 200, 20), (8000, 9000, 30)]) ∧
    GridInv (deactivateResource
      (spawnSystem [(100, 200, 20), (8000, 9000, 30)]) 0) := by
  have h := grid_consistency
  refine ⟨h.1 [(100, 200, 20), (8000, 9000, 30)] (by decide), ?_⟩
  exact h.2.2.1 (spawnSystem [(100, 200, 20), (8000, 9000, 30)]) 0
    (h.1 [(100, 200, 20), (8000, 9000, 30)] (by decide))
